import Mathlib

/-!
Verification of the MEDIMORPH prescription-extraction core.

This file gives a shallow embedding, in Lean 4, of the text-processing core of
the repository:

* `ai_processor.py` — `AIProcessor.clean_text`, `rule_based_extraction`,
  `pattern_based_extraction`, `extract_dosage_near_medication`,
  `extract_frequency_near_medication`, `extract_duration_near_medication`,
  `parse_timing_instructions`, `merge_medications` and the betterness helpers;
* `prescription_ocr.py` — `PrescriptionOCR.clean_text`;
* `MEDIMORPH-main/medication_reminder.py` — `MedicationReminder.parse_frequency`
  and `MedicationReminder._calculate_expected_doses`.

Python strings are modelled as `String`/`List Char`; the regular expressions
used by the source are embedded as hand-written matchers that mirror the
leftmost, greedy-with-backtracking semantics of `re` for the concrete patterns
appearing in the source (each matcher carries the original pattern in a
comment).  Python exceptions (`AttributeError` from the undefined
`self.fuzzy_match`, `TypeError` from subscripting `None`) are modelled with
`Except PyErr`.  Python `float` confidences and merge scores are modelled in
integer tenths (`0.7` ↦ `7`, a score increment of `3` ↦ `30`, the initial
`best_score = -1` ↦ `-10`): every confidence arising in the code is a multiple
of `0.1` and scaling by ten is an order isomorphism, so comparisons and
equalities are preserved exactly, while staying kernel-reducible.
-/

namespace MedMorph

abbrev Chars := List Char

/-- Python `\s` (ASCII): space, tab, newline, vertical tab, form feed, carriage return. -/
def isPySpace (c : Char) : Bool :=
  c = ' ' || c = '\t' || c = '\n' || c = '\x0b' || c = '\x0c' || c = '\r'

/-- Python `\w` (ASCII): letters, digits, underscore. -/
def isWordChar (c : Char) : Bool :=
  c.isAlpha || c.isDigit || c = '_'

/-- The extra characters kept by `clean_text`'s character class
`[^\w\s.,:;()\[\]{}/\-+=%]` besides `\w` and `\s`. -/
def isKeptPunct (c : Char) : Bool :=
  c = '.' || c = ',' || c = ':' || c = ';' || c = '(' || c = ')' ||
  c = '[' || c = ']' || c = '\x7b' || c = '\x7d' || c = '/' || c = '-' ||
  c = '+' || c = '=' || c = '%'

/-- `str.strip()`: drop leading and trailing Python whitespace. -/
def pyStripL (l : Chars) : Chars :=
  ((l.dropWhile isPySpace).reverse.dropWhile isPySpace).reverse

/-- `re.sub(r'\s+', ' ', ·)`: replace each maximal whitespace run by a single space.
The flag records whether the previous character was part of a whitespace run. -/
def collapseWsGo (inRun : Bool) : Chars → Chars
  | [] => []
  | c :: r =>
    if isPySpace c then
      if inRun then collapseWsGo true r else ' ' :: collapseWsGo true r
    else c :: collapseWsGo false r

/-- `re.sub(r'[^\w\s.,:;()\[\]{}/\-+=%]', ' ', ·)`: a per-character replacement. -/
def replaceDisallowed (l : Chars) : Chars :=
  l.map fun c => if isWordChar c || isPySpace c || isKeptPunct c then c else ' '

/-- `AIProcessor.clean_text` (ai_processor.py, lines 538-549):
`text = re.sub(r'\s+', ' ', text.strip())` then
`text = re.sub(r'[^\w\s.,:;()\[\]{}/\-+=%]', ' ', text)`; digits untouched. -/
def cleanTextL (l : Chars) : Chars :=
  replaceDisallowed (collapseWsGo false (pyStripL l))

def cleanText (s : String) : String :=
  ⟨cleanTextL s.data⟩

/-- `re.sub(r'\b0\b', 'O', ·)` / `re.sub(r'\bl\b', 'I', ·)` specialised to a
single word character `t`: every occurrence of `t` whose neighbours are both
non-word characters (or string ends) is replaced by `r`.  Since each match is a
single character and `re.sub` evaluates boundaries on the original string, a
neighbour-aware map is exact. -/
def standaloneSubGo (t r : Char) (prev : Option Char) : Chars → Chars
  | [] => []
  | c :: rest =>
    let prevOk := match prev with
      | none => true
      | some p => !isWordChar p
    let nextOk := match rest with
      | [] => true
      | n :: _ => !isWordChar n
    let c' := if c = t && prevOk && nextOk then r else c
    c' :: standaloneSubGo t r (some c) rest

/-- `PrescriptionOCR.clean_text` (prescription_ocr.py, lines 200-213):
the same strip/collapse/replace steps as `AIProcessor.clean_text`, followed by
`re.sub(r'\b0\b', 'O', text)` and `re.sub(r'\bl\b', 'I', text)`. -/
def ocrCleanText (s : String) : String :=
  ⟨standaloneSubGo 'l' 'I' none
    (standaloneSubGo '0' 'O' none
      (replaceDisallowed (collapseWsGo false (pyStripL s.data))))⟩

/-- The digit characters of a string, in order. -/
def stringDigits (s : String) : Chars :=
  s.data.filter Char.isDigit

/-- `str.lower()` (ASCII). -/
def lowerStr (s : String) : String :=
  ⟨s.data.map Char.toLower⟩

/-- `str.strip()` on `String`. -/
def pyStripStr (s : String) : String :=
  ⟨pyStripL s.data⟩

/-- `str.isdigit()` (ASCII): non-empty and all digits. -/
def pyIsdigit (s : String) : Bool :=
  !s.data.isEmpty && s.data.all Char.isDigit

/-- `str.title()` (ASCII): a cased character is uppercased when the previous
character is not a letter, lowercased otherwise. -/
def pyTitleGo (prevAlpha : Bool) : Chars → Chars
  | [] => []
  | c :: r =>
    if c.isAlpha then
      (if prevAlpha then c.toLower else c.toUpper) :: pyTitleGo true r
    else c :: pyTitleGo false r

def pyTitle (s : String) : String :=
  ⟨pyTitleGo false s.data⟩

/-- Is `p` a prefix of `l` (exact characters)? -/
def prefixAt (p l : Chars) : Bool :=
  match p, l with
  | [], _ => true
  | _ :: _, [] => false
  | a :: p', b :: l' => a = b && prefixAt p' l'

/-- Python `p in t` (substring containment) on character lists. -/
def containsL (t p : Chars) : Bool :=
  match t with
  | [] => p.isEmpty
  | _ :: r => prefixAt p t || containsL r p

/-- Python `p in t` on `String`s. -/
def containsStr (t p : String) : Bool :=
  containsL t.data p.data

/-- Python `t.find(p)`: index of the leftmost occurrence, `none` for `-1`. -/
def findIdxGo (p : Chars) (i : Nat) : Chars → Option Nat
  | [] => if p.isEmpty then some i else none
  | l@(_ :: r) => if prefixAt p l then some i else findIdxGo p (i + 1) r

def findIdxL (t p : Chars) : Option Nat :=
  findIdxGo p 0 t

/-- Python `text[a:b]` for `0 ≤ a ≤ b` (the clamped form produced by
`max(0, ·)` / `min(len, ·)` in the source). -/
def sliceL (l : Chars) (a b : Nat) : Chars :=
  (l.drop a).take (b - a)

/-- Python `str.split()` (no argument): split on whitespace runs, no empties.
`cur` is the reversed word being accumulated. -/
def pySplitGo (cur : Chars) : Chars → List Chars
  | [] => if cur.isEmpty then [] else [cur.reverse]
  | c :: r =>
    if isPySpace c then
      if cur.isEmpty then pySplitGo [] r else cur.reverse :: pySplitGo [] r
    else pySplitGo (c :: cur) r

def pySplitL (l : Chars) : List Chars :=
  pySplitGo [] l

def pySplit (s : String) : List String :=
  (pySplitL s.data).map fun l => ⟨l⟩

/-- Digit characters to the number they denote (`int(·)` on a digit string). -/
def digitsToNat (l : Chars) : Nat :=
  l.foldl (fun acc c => acc * 10 + (c.toNat - '0'.toNat)) 0

/-! ### Regex building blocks

The source's regexes are embedded as hand-written matchers with Python `re`
semantics (leftmost start, greedy quantifiers, ordered alternation with
backtracking into later alternatives when the continuation fails).  All the
patterns are applied with `re.IGNORECASE`, so `[A-Z]`/`[a-z]` both match any
ASCII letter and literals compare case-insensitively. -/

/-- `\s*` (greedy; safe without backtracking here because every continuation
in the source's patterns starts with a non-whitespace character class). -/
def skipWs (l : Chars) : Chars :=
  l.dropWhile isPySpace

/-- `\s*` that also tracks the last consumed character (used where a `\b`
follows and needs the preceding character). -/
def skipWsPrev : Option Char → Chars → Option Char × Chars
  | prev, [] => (prev, [])
  | prev, c :: r => if isPySpace c then skipWsPrev (some c) r else (prev, c :: r)

/-- Is the current position a word boundary given the previous character? -/
def boundaryOK : Option Char → Bool
  | none => true
  | some c => !isWordChar c

/-- `\b` after a word character: the next character is absent or non-word. -/
def atNonWord : Chars → Bool
  | [] => true
  | c :: _ => !isWordChar c

/-- `\d+(?:\.\d+)?` (greedy): the matched characters and the rest. -/
def matchNum (l : Chars) : Option (Chars × Chars) :=
  let d := l.takeWhile Char.isDigit
  if d.isEmpty then none
  else
    match l.dropWhile Char.isDigit with
    | '.' :: r2 =>
      let d2 := r2.takeWhile Char.isDigit
      if d2.isEmpty then some (d, l.dropWhile Char.isDigit)
      else some (d ++ '.' :: d2, r2.dropWhile Char.isDigit)
    | r => some (d, r)

/-- Case-insensitive literal (`pat` given in lowercase); returns the matched
original-case characters and the rest. -/
def takeLitCIGo : Chars → Chars → Option (Chars × Chars)
  | [], l => some ([], l)
  | _ :: _, [] => none
  | p :: ps, c :: cs =>
    if c.toLower = p then
      match takeLitCIGo ps cs with
      | some (m, r) => some (c :: m, r)
      | none => none
    else none

def takeLitCI (pat : String) (l : Chars) : Option (Chars × Chars) :=
  takeLitCIGo pat.data l

/-- Ordered alternation `(a1|a2|...)` with continuation `k`: alternatives are
tried in order and a later alternative is tried when `k` fails (regex
backtracking). -/
def firstAlt {α : Type} (alts : List String) (l : Chars) (k : Chars → Chars → Option α) :
    Option α :=
  match alts with
  | [] => none
  | a :: rest =>
    match takeLitCI a l with
    | some (m, r) =>
      match k m r with
      | some x => some x
      | none => firstAlt rest l k
    | none => firstAlt rest l k

/-- `[A-Z][a-z]+` under `re.IGNORECASE`: a maximal run of at least two letters. -/
def matchWordTok (l : Chars) : Option (Chars × Chars) :=
  let w := l.takeWhile Char.isAlpha
  if 2 ≤ w.length then some (w, l.dropWhile Char.isAlpha) else none

/-- `(?:[-\s][A-Z][a-z]+)*` (greedy): the list of extension segments (each
including its separator) and the rest.  Fuel-driven; each extension consumes
at least three characters, so `l.length` fuel is always enough. -/
def nameExts : Nat → Chars → List Chars × Chars
  | 0, l => ([], l)
  | fuel + 1, l =>
    match l with
    | [] => ([], [])
    | c :: r =>
      if c = '-' || isPySpace c then
        match matchWordTok r with
        | some (w, r2) =>
          let (es, r3) := nameExts fuel r2
          ((c :: w) :: es, r3)
        | none => ([], l)
      else ([], l)

/-- `\b[A-Z][a-z]+(?:[-\s][A-Z][a-z]+)*` with no `\b` after it (the following
token in the source patterns is `\s*\d`, which backtracking over the greedy
extensions can never rescue, so no backtracking is required). -/
def matchName (prev : Option Char) (l : Chars) : Option (Chars × Chars) :=
  if boundaryOK prev then
    match matchWordTok l with
    | some (w, r) =>
      let (es, r2) := nameExts r.length r
      some (w ++ es.flatten, r2)
    | none => none
  else none

/-- `\b[A-Z][a-z]+(?:[-\s][A-Z][a-z]+)*` followed by `\b`.  When the trailing
boundary fails after the greedy match, the regex engine backtracks: shrinking
`[a-z]+` always leaves a letter (a word character) next, so the only fruitful
backtrack is dropping the last extension, after which the next character is
the dropped separator (non-word), satisfying `\b`. -/
def matchNameTB (prev : Option Char) (l : Chars) : Option (Chars × Chars) :=
  if boundaryOK prev then
    match matchWordTok l with
    | some (w, r) =>
      let (es, r2) := nameExts r.length r
      if atNonWord r2 then some (w ++ es.flatten, r2)
      else
        match es.getLast? with
        | some lastE => some (w ++ es.dropLast.flatten, lastE ++ r2)
        | none => none
    | none => none
  else none

/-- `[A-Z][a-z]+` case-sensitively (used by the one pattern compiled without
`re.IGNORECASE`): one uppercase letter then a maximal run of lowercase. -/
def matchWordTokCS (l : Chars) : Option (Chars × Chars) :=
  match l with
  | [] => none
  | c :: r =>
    if c.isUpper then
      let w := r.takeWhile Char.isLower
      if w.isEmpty then none else some (c :: w, r.dropWhile Char.isLower)
    else none

def nameExtsCS : Nat → Chars → List Chars × Chars
  | 0, l => ([], l)
  | fuel + 1, l =>
    match l with
    | [] => ([], [])
    | c :: r =>
      if c = '-' || isPySpace c then
        match matchWordTokCS r with
        | some (w, r2) =>
          let (es, r3) := nameExtsCS fuel r2
          ((c :: w) :: es, r3)
        | none => ([], l)
      else ([], l)

/-- `\b[A-Z][a-z]+(?:[-\s][A-Z][a-z]+)*\b`, case-sensitive. -/
def matchNameTBCS (prev : Option Char) (l : Chars) : Option (Chars × Chars) :=
  if boundaryOK prev then
    match matchWordTokCS l with
    | some (w, r) =>
      let (es, r2) := nameExtsCS r.length r
      if atNonWord r2 then some (w ++ es.flatten, r2)
      else
        match es.getLast? with
        | some lastE => some (w ++ es.dropLast.flatten, lastE ++ r2)
        | none => none
    | none => none
  else none

/-- `re.search`: first match over all start positions, left to right. -/
def scanFirst {α : Type} (step : Option Char → Chars → Option α) :
    Option Char → Chars → Option α
  | _, [] => none
  | prev, c :: r =>
    match step prev (c :: r) with
    | some x => some x
    | none => scanFirst step (some c) r

/-- The last character of the first `k` characters of `l` (the character just
before the continuation point after a match of length `k`). -/
def lastChar (l : Chars) (k : Nat) : Option Char :=
  (l.take k).getLast?

/-- `re.findall`: all non-overlapping matches, leftmost-first, resuming after
each match.  Fuel-driven (every match consumes at least one character, so
`l.length + 1` fuel is always enough). -/
def scanAll {α : Type} (step : Option Char → Chars → Option (α × Chars)) :
    Nat → Option Char → Chars → List α
  | 0, _, _ => []
  | _ + 1, _, [] => []
  | fuel + 1, prev, c :: r =>
    match step prev (c :: r) with
    | some (x, rest) =>
      let k := (c :: r).length - rest.length
      x :: scanAll step fuel (lastChar (c :: r) k) rest
    | none => scanAll step fuel (some c) r

/-- `re.finditer`, also recording each match's end index in the scanned text
(used by `pattern_based_extraction`'s two-group branch). -/
def findIterGo (m : Option Char → Chars → Option (List String × Chars)) :
    Nat → Option Char → Nat → Chars → List (List String × Nat)
  | 0, _, _, _ => []
  | _ + 1, _, _, [] => []
  | fuel + 1, prev, idx, c :: r =>
    match m prev (c :: r) with
    | some (g, rest) =>
      let k := (c :: r).length - rest.length
      (g, idx + k) :: findIterGo m fuel (lastChar (c :: r) k) (idx + k) rest
    | none => findIterGo m fuel (some c) (idx + 1) r

def findIter (m : Option Char → Chars → Option (List String × Chars)) (l : Chars) :
    List (List String × Nat) :=
  findIterGo m (l.length + 1) none 0 l

/-! ### The ten patterns of `pattern_based_extraction` (ai_processor.py 145-175) -/

/-- `(mg|ml|g|mcg|units?)` in source order (`units?` greedily tries `units`
before `unit`). -/
def unitStrs : List String := ["mg", "ml", "g", "mcg", "units", "unit"]

/-- Pattern 1: `(\b[A-Z][a-z]+(?:[-\s][A-Z][a-z]+)*)\s*(\d+(?:\.\d+)?)\s*(mg|ml|g|mcg|units?)\b`. -/
def matchP1 (prev : Option Char) (l : Chars) : Option (List String × Chars) :=
  match matchName prev l with
  | none => none
  | some (nm, r1) =>
    match matchNum (skipWs r1) with
    | none => none
    | some (num, r3) =>
      firstAlt unitStrs (skipWs r3) fun u rest =>
        if atNonWord rest then some ([⟨nm⟩, ⟨num⟩, ⟨u⟩], rest) else none

/-- Pattern 2: `(name)\s*(num)\s*(unit)\s*(tablet|capsule|pill|dose|tab|caps)\b`. -/
def matchP2 (prev : Option Char) (l : Chars) : Option (List String × Chars) :=
  match matchName prev l with
  | none => none
  | some (nm, r1) =>
    match matchNum (skipWs r1) with
    | none => none
    | some (num, r3) =>
      firstAlt unitStrs (skipWs r3) fun u rest =>
        firstAlt ["tablet", "capsule", "pill", "dose", "tab", "caps"] (skipWs rest) fun f rest2 =>
          if atNonWord rest2 then some ([⟨nm⟩, ⟨num⟩, ⟨u⟩, ⟨f⟩], rest2) else none

/-- Pattern 3: `(name)\s*(num)\s*(unit)\s*(once|twice|thrice|daily|bid|tid|qid)\b`. -/
def matchP3 (prev : Option Char) (l : Chars) : Option (List String × Chars) :=
  match matchName prev l with
  | none => none
  | some (nm, r1) =>
    match matchNum (skipWs r1) with
    | none => none
    | some (num, r3) =>
      firstAlt unitStrs (skipWs r3) fun u rest =>
        firstAlt ["once", "twice", "thrice", "daily", "bid", "tid", "qid"] (skipWs rest)
          fun f rest2 =>
            if atNonWord rest2 then some ([⟨nm⟩, ⟨num⟩, ⟨u⟩, ⟨f⟩], rest2) else none

/-- Pattern 4:
`(Tab\.|Caps\.|Syr\.|Inj\.|Tablet|Capsule|Syrup|Injection)\s*(name)\s*(num)\s*(unit)\b`
(no leading `\b`). -/
def matchP4 (_prev : Option Char) (l : Chars) : Option (List String × Chars) :=
  firstAlt ["tab.", "caps.", "syr.", "inj.", "tablet", "capsule", "syrup", "injection"] l
    fun f r1 =>
      let (prev2, r2) := skipWsPrev f.getLast? r1
      match matchName prev2 r2 with
      | none => none
      | some (nm, r3) =>
        match matchNum (skipWs r3) with
        | none => none
        | some (num, r4) =>
          firstAlt unitStrs (skipWs r4) fun u rest =>
            if atNonWord rest then some ([⟨f⟩, ⟨nm⟩, ⟨num⟩, ⟨u⟩], rest) else none

/-- Pattern 5: `(name)\s*(num)\s*(unit)\s*(1-0-1|1-0-0|1-1-1|0-0-1|1-1-0)\b`. -/
def matchP5 (prev : Option Char) (l : Chars) : Option (List String × Chars) :=
  match matchName prev l with
  | none => none
  | some (nm, r1) =>
    match matchNum (skipWs r1) with
    | none => none
    | some (num, r3) =>
      firstAlt unitStrs (skipWs r3) fun u rest =>
        firstAlt ["1-0-1", "1-0-0", "1-1-1", "0-0-1", "1-1-0"] (skipWs rest) fun f rest2 =>
          if atNonWord rest2 then some ([⟨nm⟩, ⟨num⟩, ⟨u⟩, ⟨f⟩], rest2) else none

/-- Pattern 6 (dosage first): `(\d+(?:\.\d+)?)\s*(mg|ml|g|mcg|units?)\s*(\bname)\b`. -/
def matchP6 (_prev : Option Char) (l : Chars) : Option (List String × Chars) :=
  match matchNum l with
  | none => none
  | some (num, r1) =>
    firstAlt unitStrs (skipWs r1) fun u rest =>
      let (prev2, r2) := skipWsPrev u.getLast? rest
      match matchNameTB prev2 r2 with
      | some (nm, r3) => some ([⟨num⟩, ⟨u⟩, ⟨nm⟩], r3)
      | none => none

/-- Pattern 7: `(name)\s*(?:strength|dose|dosage)?\s*(num)\s*(unit)\b`. -/
def matchP7 (prev : Option Char) (l : Chars) : Option (List String × Chars) :=
  match matchName prev l with
  | none => none
  | some (nm, r1) =>
    let cont : Chars → Option (List String × Chars) := fun r =>
      match matchNum (skipWs r) with
      | none => none
      | some (num, r3) =>
        firstAlt unitStrs (skipWs r3) fun u rest =>
          if atNonWord rest then some ([⟨nm⟩, ⟨num⟩, ⟨u⟩], rest) else none
    let r2 := skipWs r1
    match firstAlt ["strength", "dose", "dosage"] r2 (fun _ rest => cont rest) with
    | some x => some x
    | none => cont r2

/-- Pattern 8:
`(aspirin|ibuprofen|acetaminophen|paracetamol|amoxicillin|metformin|lisinopril|atorvastatin|omeprazole)\s*(num)\s*(unit)\b`
(no leading `\b`). -/
def matchP8 (_prev : Option Char) (l : Chars) : Option (List String × Chars) :=
  firstAlt ["aspirin", "ibuprofen", "acetaminophen", "paracetamol", "amoxicillin",
      "metformin", "lisinopril", "atorvastatin", "omeprazole"] l fun d r1 =>
    match matchNum (skipWs r1) with
    | none => none
    | some (num, r3) =>
      firstAlt unitStrs (skipWs r3) fun u rest =>
        if atNonWord rest then some ([⟨d⟩, ⟨num⟩, ⟨u⟩], rest) else none

/-- Pattern 9: `Tab\.\s*(name)\s*(num)\s*(unit)\b` (the `Tab.` is not captured). -/
def matchP9 (_prev : Option Char) (l : Chars) : Option (List String × Chars) :=
  match takeLitCI "tab." l with
  | none => none
  | some (t, r1) =>
    let (prev2, r2) := skipWsPrev t.getLast? r1
    match matchName prev2 r2 with
    | none => none
    | some (nm, r3) =>
      match matchNum (skipWs r3) with
      | none => none
      | some (num, r4) =>
        firstAlt unitStrs (skipWs r4) fun u rest =>
          if atNonWord rest then some ([⟨nm⟩, ⟨num⟩, ⟨u⟩], rest) else none

/-- Pattern 10: `Tab\.\s*(\b[A-Z][a-z]+(?:[-\s][A-Z][a-z]+)*)\b`. -/
def matchP10 (_prev : Option Char) (l : Chars) : Option (List String × Chars) :=
  match takeLitCI "tab." l with
  | none => none
  | some (t, r1) =>
    let (prev2, r2) := skipWsPrev t.getLast? r1
    match matchNameTB prev2 r2 with
    | some (nm, r3) => some ([⟨nm⟩], r3)
    | none => none

def patternMatchers : List (Option Char → Chars → Option (List String × Chars)) :=
  [matchP1, matchP2, matchP3, matchP4, matchP5, matchP6, matchP7, matchP8, matchP9, matchP10]

/-! ### Python exceptions -/

/-- The two exceptions the modelled code can raise: `AttributeError` from the
call to the nowhere-defined `self.fuzzy_match`, and `TypeError` from
subscripting `None` (`best_med['dosage']` when no best medication was picked)
or calling `.strip()` on a non-string. -/
inductive PyErr where
  | attributeError
  | typeError
deriving DecidableEq, Repr

/-! ### `extract_dosage_near_medication` (ai_processor.py 240-292) -/

/-- Dosage pattern 1: `(\d+(?:\.\d+)?)\s*(mg|ml|g|mcg|units?)\b` — first match's
two groups. -/
def doseStep1 (_prev : Option Char) (l : Chars) : Option (String × String) :=
  match matchNum l with
  | none => none
  | some (num, r1) =>
    firstAlt unitStrs (skipWs r1) fun u rest =>
      if atNonWord rest then some (⟨num⟩, ⟨u⟩) else none

/-- Dosage pattern 2:
`(\d+(?:\.\d+)?)\s*(mg|ml|g|mcg|units?)\s*(tablet|capsule|pill|dose)\b` —
the code uses only the first two groups of a match. -/
def doseStep2 (_prev : Option Char) (l : Chars) : Option (String × String) :=
  match matchNum l with
  | none => none
  | some (num, r1) =>
    firstAlt unitStrs (skipWs r1) fun u rest =>
      firstAlt ["tablet", "capsule", "pill", "dose"] (skipWs rest) fun _ rest2 =>
        if atNonWord rest2 then some (⟨num⟩, ⟨u⟩) else none

/-- Dosage pattern 3: `\b(625|500|250|125|40|20|10|5)\s*(mg|ml)\b`. -/
def doseStep3 (prev : Option Char) (l : Chars) : Option (String × String) :=
  if boundaryOK prev then
    firstAlt ["625", "500", "250", "125", "40", "20", "10", "5"] l fun n r1 =>
      firstAlt ["mg", "ml"] (skipWs r1) fun u rest =>
        if atNonWord rest then some (⟨n⟩, ⟨u⟩) else none
  else none

/-- Dosage patterns 4/5: `\b(\d{2,4})\s*(?:mg|ml)\b` and
`\b(\d{2,4})\s*(?:mg|ml|m|g)\b`.  The unit group is non-capturing, so
`re.findall` yields plain strings and the code formats them as `"<n> mg"`.
`\d{2,4}` can only complete when the whole digit run at a boundary has length
2 to 4 (shrinking the greedy match always leaves a digit next). -/
def doseStepBare (units : List String) (prev : Option Char) (l : Chars) : Option String :=
  if boundaryOK prev then
    let run := l.takeWhile Char.isDigit
    if 2 ≤ run.length && run.length ≤ 4 then
      firstAlt units (skipWs (l.dropWhile Char.isDigit)) fun _ rest =>
        if atNonWord rest then some ⟨run⟩ else none
    else none
  else none

/-- Fallback scan `\b(\d{2,4})\b`: all standalone 2-4 digit runs, in order. -/
def bareNumStep (prev : Option Char) (l : Chars) : Option (String × Chars) :=
  if boundaryOK prev then
    let run := l.takeWhile Char.isDigit
    let rest := l.dropWhile Char.isDigit
    if 2 ≤ run.length && run.length ≤ 4 && atNonWord rest then some (⟨run⟩, rest)
    else none
  else none

def allowedDoseVals : List Nat := [625, 500, 250, 125, 100, 75, 50, 40, 25, 20, 10, 5]

/-- The pattern cascade of `extract_dosage_near_medication` over the context
window (tried in order; first pattern with any match decides). -/
def dosageScan (w : Chars) : String :=
  match scanFirst doseStep1 none w with
  | some (n, u) => n ++ " " ++ u
  | none =>
  match scanFirst doseStep2 none w with
  | some (n, u) => n ++ " " ++ u
  | none =>
  match scanFirst doseStep3 none w with
  | some (n, u) => n ++ " " ++ u
  | none =>
  match scanFirst (doseStepBare ["mg", "ml"]) none w with
  | some n => n ++ " mg"
  | none =>
  match scanFirst (doseStepBare ["mg", "ml", "m", "g"]) none w with
  | some n => n ++ " mg"
  | none =>
  match (scanAll bareNumStep (w.length + 1) none w).find?
      (fun n => allowedDoseVals.contains (digitsToNat n.data)) with
  | some n => n ++ " mg"
  | none => "Unknown dosage"

/-- `extract_dosage_near_medication(text, medication_name)`.  When the exact
case-insensitive find fails, the code enters a word loop whose first iteration
calls the undefined `self.fuzzy_match` (AttributeError); with no words the
`for`-`else` returns the default sentinel. -/
def extractDosageNearMedication (text mention : String) : Except PyErr String :=
  match findIdxL (lowerStr text).data (lowerStr mention).data with
  | none =>
    if (pySplitL text.data).isEmpty then .ok "Unknown dosage" else .error .attributeError
  | some pos =>
    .ok (dosageScan (sliceL text.data (pos - 50) (min text.data.length (pos + 150))))

/-! ### `extract_frequency_near_medication` (ai_processor.py 294-364) -/

/-- The timing patterns checked first (each regex is a literal alternation, so
`re.search` is substring containment). -/
def timingPatterns : List (List String × String) :=
  [(["1-0-1", "1 0 1"], "twice daily (morning & night)"),
   (["1-1-1", "1 1 1"], "three times daily (morning, afternoon & night)"),
   (["1-0-0", "1 0 0"], "once daily (morning)"),
   (["0-0-1", "0 0 1"], "once daily (night)"),
   (["1-1-0", "1 1 0"], "twice daily (morning & afternoon)"),
   (["0-1-1", "0 1 1"], "twice daily (afternoon & night)"),
   (["2-0-2", "2 0 2"], "twice daily (2 morning & 2 night)"),
   (["1-2-1", "1 2 1"], "four times daily (1 morning, 2 afternoon, 1 night)")]

/-- `self.frequency_patterns` (ai_processor.py 50-70).  The Python dict literal
repeats the keys `'once daily (morning)'`, `'twice daily (morning & night)'`
and `'every 6 hours'`; Python keeps the first insertion position but the last
value, which is what is listed here. -/
def freqPatterns : List (String × List String) :=
  [("once daily (morning)", ["1 morning", "morning"]),
   ("twice daily (morning & night)", ["1 morning, 1 night", "morning and night"]),
   ("three times daily (morning, afternoon & night)",
     ["three times daily", "three times a day", "tid", "t.i.d.", "every 8 hours",
      "1-1-1", "1 1 1"]),
   ("twice daily (morning & afternoon)", ["1-1-0", "1 1 0"]),
   ("twice daily (afternoon & night)", ["0-1-1", "0 1 1"]),
   ("four times daily", ["four times daily", "four times a day", "qid", "q.i.d.",
      "every 6 hours"]),
   ("every 6 hours", ["q6h", "qid", "every 6 hours"]),
   ("every 8 hours", ["every 8 hours", "q8h", "q.8.h."]),
   ("every 12 hours", ["every 12 hours", "q12h", "q.12.h."]),
   ("as needed", ["as needed", "prn", "p.r.n.", "when required", "sos"]),
   ("before meals", ["before meals", "ac", "a.c.", "ante cibum"]),
   ("after meals", ["after meals", "pc", "p.c.", "post cibum", "after food"]),
   ("at bedtime", ["at bedtime", "hs", "h.s.", "hora somni", "before sleep"]),
   ("three times daily", ["tds", "t.d.s.", "three times daily"]),
   ("once daily (night)", ["1 night", "night"])]

/-- `re.search(r'(\d)-(\d)-(\d)', ·)`: the three digit groups. -/
def dddStep (_prev : Option Char) (l : Chars) : Option (Char × Char × Char) :=
  match l with
  | a :: '-' :: b :: '-' :: c :: _ =>
    if a.isDigit && b.isDigit && c.isDigit then some (a, b, c) else none
  | _ => none

/-- The `total_doses` classification (ai_processor.py 340-362). -/
def classifyDDD (m a n : Char) : String :=
  let total := (m.toNat - '0'.toNat) + (a.toNat - '0'.toNat) + (n.toNat - '0'.toNat)
  if total = 1 then
    if m = '1' then "once daily (morning)"
    else if a = '1' then "once daily (afternoon)"
    else "once daily (night)"
  else if total = 2 then
    if m = '1' && n = '1' then "twice daily (morning & night)"
    else if m = '1' && a = '1' then "twice daily (morning & afternoon)"
    else "twice daily (afternoon & night)"
  else if total = 3 then "three times daily (morning, afternoon & night)"
  else toString total ++ " times daily"

/-- The frequency cascade over the (lowercased) context window. -/
def freqFromWindow (w : Chars) : String :=
  match timingPatterns.find? (fun tp => tp.1.any fun p => containsL w p.data) with
  | some tp => tp.2
  | none =>
  match freqPatterns.find? (fun fp => fp.2.any fun p => containsL w p.data) with
  | some fp => fp.1
  | none =>
  match scanFirst dddStep none w with
  | some (m, a, n) => classifyDDD m a n
  | none => "daily"

/-- `extract_frequency_near_medication(text, medication_name)`; same
AttributeError behaviour as the dosage extractor when the find fails. -/
def extractFrequencyNearMedication (text mention : String) : Except PyErr String :=
  let tl := (lowerStr text).data
  match findIdxL tl (lowerStr mention).data with
  | none =>
    if (pySplitL text.data).isEmpty then .ok "daily" else .error .attributeError
  | some pos =>
    .ok (freqFromWindow (sliceL tl (pos - 100) (min tl.length (pos + 200))))

/-! ### `extract_duration_near_medication` (ai_processor.py 380-399) -/

/-- `self.duration_patterns` with each regex alternation expanded in greedy
order (`days?` tries `days` before `day`, ...). -/
def durationPatterns : List (String × List String) :=
  [("days", ["days", "day", "d"]),
   ("weeks", ["weeks", "week", "wks", "wk", "w"]),
   ("months", ["months", "month", "mos", "mo", "m"]),
   ("years", ["years", "year", "yrs", "yr", "y"])]

/-- `(\d+)\s*(alt)`: first match's digit group. -/
def durStep (alts : List String) (_prev : Option Char) (l : Chars) : Option String :=
  let run := l.takeWhile Char.isDigit
  if run.isEmpty then none
  else
    firstAlt alts (skipWs (l.dropWhile Char.isDigit)) fun _ _ => some (⟨run⟩ : String)

def durFromWindow (w : Chars) : String :=
  match durationPatterns.findSome?
      (fun dp => (scanFirst (durStep dp.2) none w).map fun n => n ++ " " ++ dp.1) with
  | some s => s
  | none => "7 days"

/-- `extract_duration_near_medication(text, medication_name)`: unlike the other
two sub-extractors there is no fuzzy fallback; a failed find returns the
default directly (so this one never raises). -/
def extractDurationNearMedication (text mention : String) : Except PyErr String :=
  let tl := (lowerStr text).data
  match findIdxL tl (lowerStr mention).data with
  | none => .ok "7 days"
  | some pos =>
    .ok (durFromWindow (sliceL tl (pos - 100) (min tl.length (pos + 200))))

/-! ### `parse_timing_instructions` (ai_processor.py 366-378) -/

def timingInstrTable : List (String × String) :=
  [("once daily (morning)", "Take 1 dose in the morning"),
   ("once daily (afternoon)", "Take 1 dose in the afternoon"),
   ("once daily (night)", "Take 1 dose at night"),
   ("twice daily (morning & night)", "Take 1 dose in the morning and 1 dose at night"),
   ("twice daily (morning & afternoon)",
     "Take 1 dose in the morning and 1 dose in the afternoon"),
   ("twice daily (afternoon & night)",
     "Take 1 dose in the afternoon and 1 dose at night"),
   ("three times daily (morning, afternoon & night)",
     "Take 1 dose in the morning, 1 dose in the afternoon, and 1 dose at night")]

def parseTimingInstructions (f : String) : String :=
  match timingInstrTable.find? (fun p => p.1 == f) with
  | some p => p.2
  | none => f

/-! ### Medication candidates and `rule_based_extraction` (ai_processor.py 103-138) -/

/-- One medication dict as built by the extractors. -/
structure Med where
  name : String
  dosage : String
  frequency : String
  duration : String
  instructions : String
  /-- Confidence in tenths: Python `0.8` is `8`, `0.7` is `7`. -/
  confidence : Int
  source : String
deriving DecidableEq, Repr

/-- `self.medication_database` (ai_processor.py 12-47), in dict order. -/
def medicationDatabase : List (String × List String) :=
  [("aspirin", ["aspirin", "acetylsalicylic acid", "asa"]),
   ("ibuprofen", ["ibuprofen", "advil", "motrin", "brufen"]),
   ("acetaminophen", ["acetaminophen", "paracetamol", "tylenol"]),
   ("amoxicillin", ["amoxicillin", "amoxil", "trimox"]),
   ("augmentin", ["augmentin"]),
   ("metformin", ["metformin", "glucophage"]),
   ("lisinopril", ["lisinopril", "prinivil", "zestril"]),
   ("atorvastatin", ["atorvastatin", "lipitor"]),
   ("omeprazole", ["omeprazole", "prilosec"]),
   ("pand", ["pand"]),
   ("simvastatin", ["simvastatin", "zocor"]),
   ("metoprolol", ["metoprolol", "lopressor", "toprol"]),
   ("losartan", ["losartan", "cozaar"]),
   ("amlodipine", ["amlodipine", "norvasc"]),
   ("hydrochlorothiazide", ["hydrochlorothiazide", "hctz", "microzide"]),
   ("pantoprazole", ["pantoprazole", "protonix"]),
   ("carvedilol", ["carvedilol", "coreg"]),
   ("furosemide", ["furosemide", "lasix"]),
   ("spironolactone", ["spironolactone", "aldactone"]),
   ("tramadol", ["tramadol", "ultram"]),
   ("gabapentin", ["gabapentin", "neurontin"]),
   ("duloxetine", ["duloxetine", "cymbalta"]),
   ("enzoflam", ["enzoflam"]),
   ("hexigel", ["hexigel"]),
   ("calpol", ["calpol", "syp calpol"]),
   ("delcon", ["delcon", "syp delcon"]),
   ("levolin", ["levolin", "syp levolin"]),
   ("meftol", ["meftol", "meftol-p", "syp meftol", "syp meftol-p"]),
   ("abciximab", ["abciximab", "tab abciximab"]),
   ("vomilast", ["vomilast", "tab vomilast"]),
   ("zoclar", ["zoclar", "cap zoclar"]),
   ("gestakind", ["gestakind", "tab gestakind"])]

/-- The inner loop of `rule_based_extraction`: the first variation contained in
the lowercased text (with the `med_name not in found_medications` guard). -/
def firstVariation (tl : String) (found : List String) (medName : String) :
    List String → Option String
  | [] => none
  | v :: vs =>
    if containsStr tl v && !found.contains medName then some v
    else firstVariation tl found medName vs

def ruleBasedGo (text tl : String) :
    List (String × List String) → List String → Except PyErr (List Med)
  | [], _ => .ok []
  | (medName, vars) :: rest, found =>
    match firstVariation tl found medName vars with
    | none => ruleBasedGo text tl rest found
    | some variation =>
      match extractDosageNearMedication text variation with
      | .error e => .error e
      | .ok d =>
        match extractFrequencyNearMedication text variation with
        | .error e => .error e
        | .ok f =>
          match extractDurationNearMedication text variation with
          | .error e => .error e
          | .ok du =>
            match ruleBasedGo text tl rest (found ++ [medName]) with
            | .error e => .error e
            | .ok ms =>
              .ok ({ name := pyTitle medName, dosage := d, frequency := f,
                     duration := du, instructions := parseTimingInstructions f,
                     confidence := 8, source := "rule_based" } :: ms)

def ruleBasedExtraction (text : String) : Except PyErr (List Med) :=
  ruleBasedGo text (lowerStr text) medicationDatabase []

/-! ### `pattern_based_extraction` (ai_processor.py 140-238) -/

/-- The branch on `len(groups)` (ai_processor.py 184-209) giving the candidate
name and dosage.  The two-group branch is dead for the ten patterns above
(each yields 1, 3 or 4 groups) but is embedded for fidelity: it runs the
case-sensitive name search `re.search(r'(\b[A-Z][a-z]+(?:[-\s][A-Z][a-z]+)*)\b', ·)`
on `text[match.end() : match.end()+50]` and falls back to the placeholder
`"Unknown Medication"`. -/
def matchNameDosage (text : String) (g : List String × Nat) : String × String :=
  let gs := g.1
  if 4 ≤ gs.length then (gs[1]!, gs[2]! ++ " " ++ gs[3]!)
  else if 3 ≤ gs.length then (gs[0]!, gs[1]! ++ " " ++ gs[2]!)
  else if gs.length = 2 then
    if pyIsdigit gs[0]! || containsStr gs[0]! "." then
      let remaining := sliceL text.data g.2 (g.2 + 50)
      let medName :=
        match scanFirst (fun prev l => (matchNameTBCS prev l).map (·.1)) none remaining with
        | some nm => (⟨nm⟩ : String)
        | none => "Unknown Medication"
      (medName, gs[0]! ++ " " ++ gs[1]!)
    else (gs[0]!, "1 tablet")
  else (gs[0]!, "1 tablet")

/-- Processing of one pattern's matches: skip names that are empty, shorter
than 3 after stripping, purely numeric, or already found; otherwise build a
candidate (`confidence 0.7`, `source 'pattern_based'`). -/
def pbMatches (text : String) :
    List (List String × Nat) → List String → Except PyErr (List String × List Med)
  | [], found => .ok (found, [])
  | g :: rest, found =>
    let (medName, dosage) := matchNameDosage text g
    if medName == "" || (pyStripStr medName).data.length < 3 ||
        pyIsdigit (pyStripStr medName) then
      pbMatches text rest found
    else
      let clean := lowerStr (pyStripStr medName)
      if found.contains clean then pbMatches text rest found
      else
        match extractFrequencyNearMedication text medName with
        | .error e => .error e
        | .ok f =>
          match extractDurationNearMedication text medName with
          | .error e => .error e
          | .ok du =>
            match pbMatches text rest (found ++ [clean]) with
            | .error e => .error e
            | .ok (found2, ms) =>
              .ok (found2,
                { name := pyTitle medName, dosage := dosage, frequency := f,
                  duration := du, instructions := parseTimingInstructions f,
                  confidence := 7, source := "pattern_based" } :: ms)

def pbOuter (text : String) :
    List (Option Char → Chars → Option (List String × Chars)) → List String →
    Except PyErr (List Med)
  | [], _ => .ok []
  | m :: ms, found =>
    match pbMatches text (findIter m text.data) found with
    | .error e => .error e
    | .ok (found2, meds1) =>
      match pbOuter text ms found2 with
      | .error e => .error e
      | .ok meds2 => .ok (meds1 ++ meds2)

def patternBasedExtraction (text : String) : Except PyErr (List Med) :=
  pbOuter text patternMatchers []

/-! ### `merge_medications` and the betterness helpers (ai_processor.py 418-536) -/

def nameStoplist : List String := ["mg", "ml", "tablet", "cap", "tab", "unknown medication"]

/-- The invalid-name filter (ai_processor.py 426-430), applied to the stripped
name. -/
def invalidMedName (n : String) : Bool :=
  n == "" || n.data.length < 2 || pyIsdigit n || nameStoplist.contains (lowerStr n)

/-- First existing group key equal to, contained in, or containing the new
lowercased name (ai_processor.py 436-441). -/
def groupKeyFor (groups : List (String × List Med)) (nl : String) : Option String :=
  (groups.find? fun g => g.1 == nl || containsStr nl g.1 || containsStr g.1 nl).map (·.1)

def appendToGroup : List (String × List Med) → String → Med → List (String × List Med)
  | [], _, _ => []
  | g :: gs, k, m => if g.1 == k then (g.1, g.2 ++ [m]) :: gs else g :: appendToGroup gs k m

/-- The grouping step for one candidate (ai_processor.py 423-447). -/
def addToGroups (groups : List (String × List Med)) (med : Med) : List (String × List Med) :=
  let medName := pyStripStr med.name
  if invalidMedName medName then groups
  else
    let nl := lowerStr medName
    match groupKeyFor groups nl with
    | some k => appendToGroup groups k med
    | none => groups ++ [(nl, [med])]

/-- The information-quality score (ai_processor.py 459-484), in tenths
(each Python increment multiplied by ten, plus the tenth-valued confidence). -/
def scoreMed (m : Med) : Int :=
  let s1 : Int :=
    if containsStr m.dosage "mg" || containsStr m.dosage "ml" then 30
    else if containsStr m.dosage "tablet" then 10
    else if !containsStr m.dosage "Unknown" then 20 else 0
  let s2 : Int :=
    if containsStr m.frequency "1-0-1" || containsStr m.frequency "twice" then 20
    else if !containsStr m.frequency "daily" then 10 else 0
  let s3 : Int :=
    if containsStr m.duration "5 days" || containsStr m.duration "1 week" then 20
    else if !containsStr m.duration "7 days" && m.duration.data.any Char.isDigit then 10
    else 0
  s1 + s2 + s3 + m.confidence

/-- The best-scoring member, first maximal member winning ties
(`score > best_score`, `best_score` starting at `-1`, i.e. `-10` in tenths). -/
def pickBestGo : List Med → Option Med × Int → Option Med × Int
  | [], acc => acc
  | m :: ms, (best, bs) =>
    if scoreMed m > bs then pickBestGo ms (some m, scoreMed m) else pickBestGo ms (best, bs)

def pickBest (g : List Med) : Option Med :=
  (pickBestGo g (none, -10)).1

/-- `is_better_dosage` (ai_processor.py 512-520). -/
def isBetterDosage (newD oldD : String) : Bool :=
  (containsStr oldD "Unknown" && !containsStr newD "Unknown") ||
  (containsStr newD "mg" && containsStr oldD "tablet") ||
  (containsStr newD "ml" && containsStr oldD "tablet")

/-- `is_better_frequency` (ai_processor.py 522-528). -/
def isBetterFrequency (newF oldF : String) : Bool :=
  (containsStr oldF "daily" &&
    (containsStr newF "1-0-1" || containsStr newF "twice" || containsStr newF "three")) ||
  (decide (oldF.data.length < newF.data.length) && !containsStr newF "daily")

/-- `is_better_duration` (ai_processor.py 530-536). -/
def isBetterDuration (newDu oldDu : String) : Bool :=
  (containsStr oldDu "7 days" && !containsStr newDu "7 days") ||
  (containsStr newDu "5 days" && containsStr oldDu "7 days")

/-- One backfill step (ai_processor.py 495-506): overwrite the representative's
fields with a member's when judged better. -/
def enhance (best m : Med) : Med :=
  let b1 := if isBetterDosage m.dosage best.dosage then { best with dosage := m.dosage } else best
  let b2 :=
    if isBetterFrequency m.frequency b1.frequency then { b1 with frequency := m.frequency }
    else b1
  let b3 :=
    if isBetterDuration m.duration b2.duration then { b2 with duration := m.duration } else b2
  if m.instructions ≠ "" && b3.instructions == "" then { b3 with instructions := m.instructions }
  else b3

/-- The backfill loop: members equal (as dicts) to the *current* representative
are skipped (`if med == best_med: continue` compares against the mutated
`best_med`). -/
def backfill (g : List Med) (best : Med) : Med :=
  g.foldl (fun b m => if m = b then b else enhance b m) best

/-- A group's reduction.  A `none` best (possible only for negative scores,
i.e. negative confidences, which the pipeline never produces) makes the Python
subscript `best_med['dosage']` raise `TypeError`. -/
def reduceGroup (g : List Med) : Except PyErr Med :=
  match pickBest g with
  | none => .error .typeError
  | some b => .ok (backfill g b)

def reduceAll : List (String × List Med) → Except PyErr (List Med)
  | [] => .ok []
  | g :: gs =>
    match reduceGroup g.2 with
    | .error e => .error e
    | .ok b =>
      match reduceAll gs with
      | .error e => .error e
      | .ok rest => .ok (b :: rest)

/-- `merge_medications` (ai_processor.py 418-510). -/
def mergeMedications (meds : List Med) : Except PyErr (List Med) :=
  reduceAll (meds.foldl addToGroups [])

/-! ### `extract_medications` (ai_processor.py 80-101) -/

/-- The pipeline.  A `none` input models Python `None`: `None.strip()` in
`clean_text` raises `AttributeError`. -/
def extractMedications (input : Option String) : Except PyErr (List Med) :=
  match input with
  | none => .error .attributeError
  | some s =>
    match ruleBasedExtraction (cleanText s) with
    | .error e => .error e
    | .ok r =>
      match patternBasedExtraction (cleanText s) with
      | .error e => .error e
      | .ok p => mergeMedications (r ++ p)

/-! ### `MedicationReminder.parse_frequency` (medication_reminder.py 185-247) -/

def parseFrequency (frequency : String) : List String :=
  let f := lowerStr frequency
  let has := fun (p : String) => containsStr f p
  if has "morning" && has "night" then ["08:00", "20:00"]
  else if has "morning" && has "afternoon" then ["08:00", "14:00"]
  else if has "morning" then ["08:00"]
  else if has "night" then ["20:00"]
  else if has "tds" || has "t.d.s" then ["08:00", "14:00", "20:00"]
  else if has "q6h" || has "qid" then ["06:00", "12:00", "18:00", "00:00"]
  else if has "q8h" then ["08:00", "16:00", "00:00"]
  else if has "q12h" || has "bid" then ["08:00", "20:00"]
  else if has "1-0-1" || has "1 0 1" then ["08:00", "20:00"]
  else if has "1-1-1" || has "1 1 1" then ["08:00", "14:00", "20:00"]
  else if has "1-1-0" || has "1 1 0" then ["08:00", "14:00"]
  else if has "0-1-1" || has "0 1 1" then ["14:00", "20:00"]
  else if has "1-0-0" || has "1 0 0" then ["08:00"]
  else if has "0-0-1" || has "0 0 1" then ["20:00"]
  else if has "once daily" || has "daily" then ["09:00"]
  else if has "twice daily" then ["09:00", "21:00"]
  else if has "three times daily" then ["08:00", "14:00", "20:00"]
  else if has "four times daily" then ["08:00", "12:00", "16:00", "20:00"]
  else if has "every 6 hours" then ["06:00", "12:00", "18:00", "00:00"]
  else if has "every 8 hours" then ["08:00", "16:00", "00:00"]
  else if has "every 12 hours" then ["08:00", "20:00"]
  else if has "sos" || has "as needed" then []
  else ["09:00"]

/-! ### `MedicationReminder._calculate_expected_doses` (medication_reminder.py 446-466) -/

/-- `days_since_start = (datetime.utcnow() - start_date).days` is taken as the
parameter `daysSinceStart`. -/
def calcExpectedDoses (frequency : String) (daysSinceStart : Int) : Int :=
  let f := lowerStr frequency
  let has := fun (p : String) => containsStr f p
  if has "once daily" || has "daily" then daysSinceStart
  else if has "twice daily" || has "bid" then daysSinceStart * 2
  else if has "three times daily" || has "tid" then daysSinceStart * 3
  else if has "four times daily" || has "qid" then daysSinceStart * 4
  else if has "every 6 hours" || has "q6h" then daysSinceStart * 4
  else if has "every 8 hours" || has "q8h" then daysSinceStart * 3
  else if has "every 12 hours" || has "q12h" then daysSinceStart * 2
  else daysSinceStart

instance {e a : Type} [DecidableEq e] [DecidableEq a] : DecidableEq (Except e a) :=
  fun x y =>
    match x, y with
    | .ok u, .ok v =>
      if h : u = v then .isTrue (by rw [h]) else .isFalse (fun hh => h (Except.ok.inj hh))
    | .error u, .error v =>
      if h : u = v then .isTrue (by rw [h]) else .isFalse (fun hh => h (Except.error.inj hh))
    | .ok _, .error _ => .isFalse (fun hh => Except.noConfusion hh)
    | .error _, .ok _ => .isFalse (fun hh => Except.noConfusion hh)

/-! ### Apparatus for stating the properties -/

/-- A valid `"HH:MM"` clock string. -/
def validHHMM (s : String) : Bool :=
  match s.data with
  | [h1, h2, c, m1, m2] =>
    h1.isDigit && h2.isDigit && c = ':' && m1.isDigit && m2.isDigit &&
    digitsToNat [h1, h2] < 24 && digitsToNat [m1, m2] < 60
  | _ => false

/-- Lexicographic string order (agrees with Python `<=` on ASCII). -/
def strLe (a b : Chars) : Bool :=
  match a, b with
  | [], _ => true
  | _ :: _, [] => false
  | x :: xs, y :: ys => if x = y then strLe xs ys else decide (x < y)

def sortedTimes : List String → Bool
  | a :: b :: r => strLe a.data b.data && sortedTimes (b :: r)
  | _ => true

def noDupTimes : List String → Bool
  | [] => true
  | a :: r => !r.contains a && noDupTimes r

/-- Every canonical frequency label `extract_frequency_near_medication` can
return: the timing-pattern descriptions, the `frequency_patterns` keys, the
remaining `classifyDDD` outputs (`"once daily (afternoon)"` and
`"<total> times daily"` with `total` a sum of three decimal digits, so at most
27), and the fallback `"daily"`. -/
def producibleLabels : List String :=
  timingPatterns.map (·.2) ++ freqPatterns.map (·.1) ++
  ["once daily (afternoon)", "daily"] ++
  (List.range 28).map (fun n => toString n ++ " times daily")

def isOkE {α : Type} : Except PyErr α → Bool
  | .ok _ => true
  | .error _ => false

/-- The exact case-insensitive mention search all three sub-extractors start
with (`text.lower().find(mention.lower()) != -1`). -/
def containsCIStr (t m : String) : Bool :=
  (findIdxL (lowerStr t).data (lowerStr m).data).isSome

/-- The characters `AIProcessor.clean_text` can output: word characters, the
kept punctuation, and the space character. -/
def allowedOutChar (c : Char) : Bool :=
  isWordChar c || isKeptPunct c || c = ' '

/-- The name invariant claimed for merged records: non-empty, at least two
characters, not purely numeric, and case-insensitively none of the stoplist
tokens. -/
def validNameB (n : String) : Bool :=
  !(n == "") && decide (2 ≤ n.data.length) && !pyIsdigit n &&
  !nameStoplist.contains (lowerStr n)

def validRecordB (m : Med) : Bool :=
  validNameB m.name

/-- "Garbage" input: no letters and no digits at all (random symbols). -/
def noAlnumStr (s : String) : Bool :=
  s.data.all fun c => !(c.isAlpha || c.isDigit)

/-- Three already-merged records exercising the order-sensitive grouping:
`"Xyzabc"` and `"Abc"` survive one merge as separate records (group keys
`"xyz"` and `"abc"` are substring-incomparable), but re-merging groups them
(`"abc"` is a substring of `"xyzabc"`). -/
def cm1 : Med :=
  { name := "Xyz", dosage := "1 tablet", frequency := "daily", duration := "7 days",
    instructions := "daily", confidence := 7, source := "pattern_based" }

def cm2 : Med :=
  { name := "Xyzabc", dosage := "500 mg", frequency := "daily", duration := "7 days",
    instructions := "daily", confidence := 7, source := "pattern_based" }

def cm3 : Med :=
  { name := "Abc", dosage := "1 tablet", frequency := "daily", duration := "7 days",
    instructions := "daily", confidence := 7, source := "pattern_based" }

/-- The record the pipeline extracts from `"Tab. Augmentin 625mg 1-0-1 x 5 days"`. -/
def augmentinRec : Med :=
  { name := "Augmentin", dosage := "625 mg", frequency := "twice daily (morning & night)",
    duration := "5 days", instructions := "Take 1 dose in the morning and 1 dose at night",
    confidence := 8, source := "rule_based" }

/-! ## Supporting lemmas -/

theorem pySpace_cases {c : Char} (h : isPySpace c = true) :
    c = ' ' ∨ c = '\t' ∨ c = '\n' ∨ c = '\x0b' ∨ c = '\x0c' ∨ c = '\r' := by
  simp only [isPySpace, Bool.or_eq_true, decide_eq_true_eq] at h
  tauto

theorem not_digit_of_pySpace {c : Char} (h : isPySpace c = true) : c.isDigit = false := by
  rcases pySpace_cases h with h | h | h | h | h | h <;> subst h <;> decide

theorem not_alpha_of_pySpace {c : Char} (h : isPySpace c = true) : c.isAlpha = false := by
  rcases pySpace_cases h with h | h | h | h | h | h <;> subst h <;> decide

theorem not_pySpace_of_digit {c : Char} (h : c.isDigit = true) : isPySpace c = false := by
  cases hs : isPySpace c
  · rfl
  · rw [not_digit_of_pySpace hs] at h; cases h

/-- `Char.toLower` only moves the basic latin uppercase letters. -/
theorem toLower_eq_self {c : Char} (h : c.isAlpha = false) : c.toLower = c := by
  unfold Char.toLower
  rw [if_neg]
  intro hc
  have : c.isUpper = true := by
    simp only [Char.isUpper, UInt32.le_def, BitVec.le_def, Bool.and_eq_true, decide_eq_true_eq]
    exact hc
  simp [Char.isAlpha, this] at h

theorem toLower_of_pySpace {c : Char} (h : isPySpace c = true) : c.toLower = c :=
  toLower_eq_self (not_alpha_of_pySpace h)

theorem isPySpace_false_of_toLower {c d : Char} (h : c.toLower = d)
    (hd : isPySpace d = false) : isPySpace c = false := by
  cases hs : isPySpace c
  · rfl
  · rw [toLower_of_pySpace hs] at h
    subst h
    rw [hs] at hd
    cases hd

/-! ### `str.strip()` lemmas -/

theorem length_dropWhile_le' (p : Char → Bool) (l : Chars) :
    (l.dropWhile p).length ≤ l.length := by
  induction l with
  | nil => exact Nat.le_refl _
  | cons c r ih =>
    rw [List.dropWhile_cons]
    split
    · exact Nat.le_succ_of_le ih
    · exact Nat.le_refl _

theorem pyStripL_length_le (l : Chars) : (pyStripL l).length ≤ l.length := by
  unfold pyStripL
  rw [List.length_reverse]
  calc ((l.dropWhile isPySpace).reverse.dropWhile isPySpace).length
      ≤ (l.dropWhile isPySpace).reverse.length := length_dropWhile_le' _ _
    _ = (l.dropWhile isPySpace).length := List.length_reverse _
    _ ≤ l.length := length_dropWhile_le' _ _

theorem pyStripL_eq_self {l : Chars}
    (h1 : ∀ c, l.head? = some c → isPySpace c = false)
    (h2 : ∀ c, l.getLast? = some c → isPySpace c = false) : pyStripL l = l := by
  unfold pyStripL
  have e1 : l.dropWhile isPySpace = l := by
    cases l with
    | nil => rfl
    | cons a as => rw [List.dropWhile_cons, h1 a rfl]; simp
  rw [e1]
  have e2 : l.reverse.dropWhile isPySpace = l.reverse := by
    cases hr : l.reverse with
    | nil => rfl
    | cons a as =>
      have hga : l.getLast? = some a := by
        rw [List.getLast?_eq_head?_reverse, hr]; rfl
      rw [List.dropWhile_cons, h2 a hga]; simp
  rw [e2, List.reverse_reverse]

/-- Boolean check that a string's first and last characters are not whitespace. -/
def endsNonSpace (s : String) : Bool :=
  (match s.data.head? with | some c => !isPySpace c | none => true) &&
  (match s.data.getLast? with | some c => !isPySpace c | none => true)

theorem pyStrip_eq_of_lower {n s : String} (h : lowerStr n = s)
    (hs : endsNonSpace s = true) : pyStripStr n = n := by
  have hdata : n.data.map Char.toLower = s.data := congrArg String.data h
  unfold pyStripStr
  rw [show (⟨pyStripL n.data⟩ : String) = n ↔ pyStripL n.data = n.data from
    ⟨fun hh => by have := congrArg String.data hh; simpa using this,
     fun hh => by rw [hh]⟩]
  apply pyStripL_eq_self
  · intro c hc
    have : s.data.head? = some c.toLower := by
      rw [← hdata, List.head?_map, hc]; rfl
    unfold endsNonSpace at hs
    rw [this] at hs
    simp only [Bool.and_eq_true, Bool.not_eq_true'] at hs
    exact isPySpace_false_of_toLower rfl hs.1
  · intro c hc
    have : s.data.getLast? = some c.toLower := by
      rw [← hdata, List.getLast?_eq_head?_reverse, ← List.map_reverse, List.head?_map,
        ← List.getLast?_eq_head?_reverse, hc]
      rfl
    unfold endsNonSpace at hs
    rw [this] at hs
    simp only [Bool.and_eq_true, Bool.not_eq_true'] at hs
    exact isPySpace_false_of_toLower rfl hs.2

theorem mem_of_head? {l : Chars} {c : Char} (h : l.head? = some c) : c ∈ l := by
  cases l with
  | nil => cases h
  | cons a as =>
    simp only [List.head?_cons, Option.some.injEq] at h
    subst h
    exact List.mem_cons_self _ _

theorem mem_of_getLast? {l : Chars} {c : Char} (h : l.getLast? = some c) : c ∈ l := by
  rw [List.getLast?_eq_head?_reverse] at h
  exact List.mem_reverse.mp (mem_of_head? h)

theorem pyStrip_eq_of_isdigit {n : String} (h : pyIsdigit n = true) : pyStripStr n = n := by
  unfold pyIsdigit at h
  simp only [Bool.and_eq_true, List.all_eq_true] at h
  unfold pyStripStr
  have e : pyStripL n.data = n.data := by
    apply pyStripL_eq_self
    · intro c hc
      exact not_pySpace_of_digit (h.2 c (mem_of_head? hc))
    · intro c hc
      exact not_pySpace_of_digit (h.2 c (mem_of_getLast? hc))
  rw [e]

theorem pyStripStr_empty : pyStripStr "" = "" := rfl

theorem strip_eq_of_lower_stoplist {n : String}
    (h : nameStoplist.contains (lowerStr n) = true) : pyStripStr n = n := by
  have hm : lowerStr n ∈ nameStoplist := by simpa using h
  simp only [nameStoplist, List.mem_cons, List.not_mem_nil, or_false] at hm
  rcases hm with h' | h' | h' | h' | h' | h' <;> exact pyStrip_eq_of_lower h' (by decide)

/-- The invalid-name filter on the stripped name implies the claimed raw-name
invariant. -/
theorem validNameB_of_filter {n : String}
    (h : invalidMedName (pyStripStr n) = false) : validNameB n = true := by
  unfold invalidMedName at h
  simp only [Bool.or_eq_false_iff] at h
  obtain ⟨⟨⟨h1, h2⟩, h3⟩, h4⟩ := h
  unfold validNameB
  simp only [Bool.and_eq_true, Bool.not_eq_true']
  refine ⟨⟨⟨?_, ?_⟩, ?_⟩, ?_⟩
  · cases hn : n == "" with
    | false => rfl
    | true =>
      have : n = "" := by simpa using hn
      subst this
      rw [pyStripStr_empty] at h1
      simp at h1
  · have hlen : 2 ≤ (pyStripStr n).data.length := by
      simp only [decide_eq_false_iff_not, Nat.not_lt] at h2
      exact h2
    have : (pyStripStr n).data.length ≤ n.data.length := pyStripL_length_le n.data
    simp only [decide_eq_true_eq]
    omega
  · cases hd : pyIsdigit n with
    | false => rfl
    | true =>
      rw [pyStrip_eq_of_isdigit hd] at h3
      rw [hd] at h3
      cases h3
  · cases hc : nameStoplist.contains (lowerStr n) with
    | false => rfl
    | true =>
      rw [strip_eq_of_lower_stoplist hc] at h4
      rw [hc] at h4
      cases h4

/-! ### Text-normalizer lemmas (for C9) -/

theorem filter_digit_dropWhile (l : Chars) :
    (l.dropWhile isPySpace).filter Char.isDigit = l.filter Char.isDigit := by
  induction l with
  | nil => rfl
  | cons c r ih =>
    rw [List.dropWhile_cons]
    split
    next hsp =>
      rw [ih, List.filter_cons, not_digit_of_pySpace hsp]
      simp
    next => rfl

theorem filter_digit_pyStrip (l : Chars) :
    (pyStripL l).filter Char.isDigit = l.filter Char.isDigit := by
  unfold pyStripL
  rw [List.filter_reverse, filter_digit_dropWhile, List.filter_reverse,
    List.reverse_reverse, filter_digit_dropWhile]

theorem filter_digit_collapse (b : Bool) (l : Chars) :
    (collapseWsGo b l).filter Char.isDigit = l.filter Char.isDigit := by
  induction l generalizing b with
  | nil => rfl
  | cons c r ih =>
    have hsd : (' ' : Char).isDigit = false := rfl
    by_cases hsp : isPySpace c = true
    · have hd := not_digit_of_pySpace hsp
      cases b <;> simp [collapseWsGo, hsp, hd, List.filter_cons, hsd, ih]
    · simp only [Bool.not_eq_true] at hsp
      simp [collapseWsGo, hsp, List.filter_cons, ih]

theorem filter_digit_replace (l : Chars) :
    (replaceDisallowed l).filter Char.isDigit = l.filter Char.isDigit := by
  induction l with
  | nil => rfl
  | cons c r ih =>
    unfold replaceDisallowed at ih ⊢
    rw [List.map_cons]
    by_cases hk : (isWordChar c || isPySpace c || isKeptPunct c) = true
    · rw [if_pos hk, List.filter_cons, List.filter_cons]
      by_cases hd : c.isDigit = true
      · rw [if_pos hd, if_pos hd, ih]
      · rw [if_neg hd, if_neg hd]; exact ih
    · have hcd : ¬ c.isDigit = true := by
        intro hd
        apply hk
        simp [isWordChar, hd]
      rw [if_neg hk, List.filter_cons, List.filter_cons,
        if_neg (by decide : ¬ (' ' : Char).isDigit = true), if_neg hcd]
      exact ih

theorem collapse_mem_space_or {b : Bool} {l : Chars} {c : Char}
    (h : c ∈ collapseWsGo b l) : c = ' ' ∨ (c ∈ l ∧ isPySpace c = false) := by
  induction l generalizing b with
  | nil => cases h
  | cons a r ih =>
    unfold collapseWsGo at h
    by_cases hsp : isPySpace a = true
    · rw [if_pos hsp] at h
      cases b with
      | true =>
        rcases ih h with h' | ⟨h1, h2⟩
        · exact Or.inl h'
        · exact Or.inr ⟨List.mem_cons_of_mem _ h1, h2⟩
      | false =>
        rcases List.mem_cons.mp h with h' | h'
        · exact Or.inl h'
        · rcases ih h' with h'' | ⟨h1, h2⟩
          · exact Or.inl h''
          · exact Or.inr ⟨List.mem_cons_of_mem _ h1, h2⟩
    · rw [if_neg hsp] at h
      rcases List.mem_cons.mp h with h' | h'
      · subst h'
        simp only [Bool.not_eq_true] at hsp
        exact Or.inr ⟨List.mem_cons_self _ _, hsp⟩
      · rcases ih h' with h'' | ⟨h1, h2⟩
        · exact Or.inl h''
        · exact Or.inr ⟨List.mem_cons_of_mem _ h1, h2⟩

theorem allowed_replace {l : Chars} (hws : ∀ c ∈ l, isPySpace c = true → c = ' ') :
    (replaceDisallowed l).all allowedOutChar = true := by
  rw [List.all_eq_true]
  intro x hx
  unfold replaceDisallowed at hx
  obtain ⟨y, hy, hxy⟩ := List.mem_map.mp hx
  by_cases hk : (isWordChar y || isPySpace y || isKeptPunct y) = true
  · rw [if_pos hk] at hxy
    subst hxy
    rcases Bool.or_eq_true_iff.mp hk with hk' | hk'
    · rcases Bool.or_eq_true_iff.mp hk' with hk'' | hk''
      · simp [allowedOutChar, hk'']
      · rw [hws y hy hk'']
        decide
    · simp [allowedOutChar, hk']
  · rw [if_neg hk] at hxy
    subst hxy
    decide

/-! ### Entity-merger lemmas (for C5, C7, C10) -/

theorem appendToGroup_length (gs : List (String × List Med)) (k : String) (m : Med) :
    (appendToGroup gs k m).length = gs.length := by
  induction gs with
  | nil => rfl
  | cons g gs ih =>
    unfold appendToGroup
    split
    · simp
    · simp [ih]

theorem addToGroups_length (gs : List (String × List Med)) (m : Med) :
    (addToGroups gs m).length ≤ gs.length + 1 := by
  simp only [addToGroups]
  split
  · omega
  · split
    · rw [appendToGroup_length]; omega
    · simp

theorem foldl_addToGroups_length (ms : List Med) (init : List (String × List Med)) :
    (ms.foldl addToGroups init).length ≤ init.length + ms.length := by
  induction ms generalizing init with
  | nil => simp
  | cons m ms ih =>
    rw [List.foldl_cons]
    have h1 := ih (addToGroups init m)
    have h2 := addToGroups_length init m
    simp only [List.length_cons]
    omega

theorem reduceAll_length {gs : List (String × List Med)} {out : List Med}
    (h : reduceAll gs = .ok out) : out.length = gs.length := by
  induction gs generalizing out with
  | nil =>
    simp only [reduceAll, Except.ok.injEq] at h
    subst h
    rfl
  | cons g gs ih =>
    unfold reduceAll at h
    cases hr : reduceGroup g.2 with
    | error e => rw [hr] at h; exact Except.noConfusion h
    | ok b =>
      rw [hr] at h
      cases ha : reduceAll gs with
      | error e => rw [ha] at h; exact Except.noConfusion h
      | ok rest =>
        rw [ha] at h
        injection h with h
        subst h
        simp [ih ha]

theorem mergeMedications_length_le {meds out : List Med}
    (h : mergeMedications meds = .ok out) : out.length ≤ meds.length := by
  unfold mergeMedications at h
  have h1 := reduceAll_length h
  have h2 := foldl_addToGroups_length meds []
  simp only [List.length_nil, Nat.zero_add] at h2
  omega

theorem appendToGroup_members {gs : List (String × List Med)} {k : String} {m : Med}
    {g : String × List Med} (hg : g ∈ appendToGroup gs k m) {x : Med} (hx : x ∈ g.2) :
    (∃ g' ∈ gs, x ∈ g'.2) ∨ x = m := by
  induction gs with
  | nil => cases hg
  | cons g0 gs ih =>
    unfold appendToGroup at hg
    by_cases he : (g0.1 == k) = true
    · rw [if_pos he] at hg
      rcases List.mem_cons.mp hg with h' | h'
      · subst h'
        rcases List.mem_append.mp hx with h'' | h''
        · exact Or.inl ⟨g0, List.mem_cons_self _ _, h''⟩
        · simp only [List.mem_singleton] at h''
          exact Or.inr h''
      · exact Or.inl ⟨g, List.mem_cons_of_mem _ h', hx⟩
    · rw [if_neg he] at hg
      rcases List.mem_cons.mp hg with h' | h'
      · subst h'
        exact Or.inl ⟨g, List.mem_cons_self _ _, hx⟩
      · rcases ih h' with ⟨g', hg', hx'⟩ | h''
        · exact Or.inl ⟨g', List.mem_cons_of_mem _ hg', hx'⟩
        · exact Or.inr h''

theorem addToGroups_valid {gs : List (String × List Med)} {m : Med}
    (h : ∀ g ∈ gs, ∀ x ∈ g.2, invalidMedName (pyStripStr x.name) = false) :
    ∀ g ∈ addToGroups gs m, ∀ x ∈ g.2, invalidMedName (pyStripStr x.name) = false := by
  intro g hg x hx
  simp only [addToGroups] at hg
  by_cases hinv : invalidMedName (pyStripStr m.name) = true
  · rw [if_pos hinv] at hg
    exact h g hg x hx
  · rw [if_neg hinv] at hg
    have hmv : invalidMedName (pyStripStr m.name) = false := by
      cases hiv : invalidMedName (pyStripStr m.name) with
      | false => rfl
      | true => exact absurd hiv hinv
    cases hk : groupKeyFor gs (lowerStr (pyStripStr m.name)) with
    | some k =>
      rw [hk] at hg
      rcases appendToGroup_members hg hx with ⟨g', hg', hx'⟩ | hxm
      · exact h g' hg' x hx'
      · subst hxm; exact hmv
    | none =>
      rw [hk] at hg
      rcases List.mem_append.mp hg with h' | h'
      · exact h g h' x hx
      · simp only [List.mem_singleton] at h'
        subst h'
        simp only [List.mem_singleton] at hx
        subst hx
        exact hmv

theorem foldl_addToGroups_valid (ms : List Med) (init : List (String × List Med))
    (h : ∀ g ∈ init, ∀ x ∈ g.2, invalidMedName (pyStripStr x.name) = false) :
    ∀ g ∈ ms.foldl addToGroups init, ∀ x ∈ g.2,
      invalidMedName (pyStripStr x.name) = false := by
  induction ms generalizing init with
  | nil => simpa using h
  | cons m ms ih =>
    rw [List.foldl_cons]
    exact ih _ (addToGroups_valid h)

theorem pickBestGo_mem {g : List Med} {b : Med} :
    ∀ {acc : Option Med × Int}, (pickBestGo g acc).1 = some b → b ∈ g ∨ acc.1 = some b := by
  induction g with
  | nil =>
    intro acc h
    exact Or.inr h
  | cons m ms ih =>
    intro acc h
    rcases acc with ⟨best, bs⟩
    unfold pickBestGo at h
    by_cases hc : scoreMed m > bs
    · rw [if_pos hc] at h
      rcases ih h with h' | h'
      · exact Or.inl (List.mem_cons_of_mem _ h')
      · simp only [Option.some.injEq] at h'
        subst h'
        exact Or.inl (List.mem_cons_self _ _)
    · rw [if_neg hc] at h
      rcases ih h with h' | h'
      · exact Or.inl (List.mem_cons_of_mem _ h')
      · exact Or.inr h'

theorem pickBest_mem {g : List Med} {b : Med} (h : pickBest g = some b) : b ∈ g := by
  unfold pickBest at h
  rcases pickBestGo_mem h with h' | h'
  · exact h'
  · exact Option.noConfusion h'

theorem enhance_name (b m : Med) : (enhance b m).name = b.name := by
  simp only [enhance]
  repeat' split
  all_goals rfl

theorem backfill_name (g : List Med) : ∀ b : Med, (backfill g b).name = b.name := by
  unfold backfill
  induction g with
  | nil => intro b; rfl
  | cons m ms ih =>
    intro b
    rw [List.foldl_cons, ih]
    by_cases he : m = b
    · rw [if_pos he]
    · rw [if_neg he, enhance_name]

theorem reduceGroup_name {g : List Med} {b : Med} (h : reduceGroup g = .ok b) :
    ∃ m ∈ g, b.name = m.name := by
  unfold reduceGroup at h
  cases hp : pickBest g with
  | none => rw [hp] at h; exact Except.noConfusion h
  | some x =>
    rw [hp] at h
    injection h with h
    subst h
    exact ⟨x, pickBest_mem hp, backfill_name g x⟩

theorem reduceAll_names {gs : List (String × List Med)} {out : List Med}
    (h : reduceAll gs = .ok out) :
    ∀ b ∈ out, ∃ g ∈ gs, ∃ m ∈ g.2, b.name = m.name := by
  induction gs generalizing out with
  | nil =>
    simp only [reduceAll, Except.ok.injEq] at h
    subst h
    intro b hb
    cases hb
  | cons g gs ih =>
    unfold reduceAll at h
    cases hr : reduceGroup g.2 with
    | error e => rw [hr] at h; exact Except.noConfusion h
    | ok b0 =>
      rw [hr] at h
      cases ha : reduceAll gs with
      | error e => rw [ha] at h; exact Except.noConfusion h
      | ok rest =>
        rw [ha] at h
        injection h with h
        subst h
        intro b hb
        rcases List.mem_cons.mp hb with h' | h'
        · subst h'
          obtain ⟨m, hm, hbm⟩ := reduceGroup_name hr
          exact ⟨g, List.mem_cons_self _ _, m, hm, hbm⟩
        · obtain ⟨g', hg', m, hm, hbm⟩ := ih ha b h'
          exact ⟨g', List.mem_cons_of_mem _ hg', m, hm, hbm⟩

/-- Every record `merge_medications` returns carries the name of some candidate
that passed the invalid-name filter, so it satisfies the raw-name invariant. -/
theorem merge_all_valid {meds out : List Med} (h : mergeMedications meds = .ok out) :
    out.all validRecordB = true := by
  rw [List.all_eq_true]
  intro b hb
  unfold mergeMedications at h
  obtain ⟨g, hg, m, hm, hbm⟩ := reduceAll_names h b hb
  have hval := foldl_addToGroups_valid meds [] (by intro g' hg'; cases hg') g hg m hm
  unfold validRecordB
  rw [hbm]
  exact validNameB_of_filter hval

theorem extractMedications_some {s : String} {out : List Med}
    (h : extractMedications (some s) = .ok out) :
    ∃ r p, ruleBasedExtraction (cleanText s) = .ok r ∧
      patternBasedExtraction (cleanText s) = .ok p ∧
      mergeMedications (r ++ p) = .ok out := by
  have h' : (match ruleBasedExtraction (cleanText s) with
    | Except.error e => Except.error e
    | Except.ok r =>
      match patternBasedExtraction (cleanText s) with
      | Except.error e => Except.error e
      | Except.ok p => mergeMedications (r ++ p)) = Except.ok out := h
  clear h
  cases hr : ruleBasedExtraction (cleanText s) with
  | error e => rw [hr] at h'; exact Except.noConfusion h'
  | ok r =>
    rw [hr] at h'
    cases hp : patternBasedExtraction (cleanText s) with
    | error e => rw [hp] at h'; exact Except.noConfusion h'
    | ok p => exact ⟨r, p, rfl, rfl, by rw [hp] at h'; exact h'⟩

/-! ### Garbage-input lemmas (for C6): a text with no letters and no digits
matches no medication variation and no pattern. -/

theorem prefixAt_subset {p : Chars} :
    ∀ {l : Chars}, prefixAt p l = true → ∀ c ∈ p, c ∈ l := by
  induction p with
  | nil => intro l _ c hc; cases hc
  | cons a p' ih =>
    intro l h c hc
    cases l with
    | nil => cases h
    | cons b l' =>
      unfold prefixAt at h
      rw [Bool.and_eq_true] at h
      obtain ⟨hab, hrest⟩ := h
      have hab' : a = b := by simpa using hab
      rcases List.mem_cons.mp hc with h' | h'
      · subst h'; rw [hab']; exact List.mem_cons_self _ _
      · exact List.mem_cons_of_mem _ (ih hrest c h')

theorem containsL_subset {p : Chars} :
    ∀ {t : Chars}, containsL t p = true → ∀ c ∈ p, c ∈ t := by
  intro t
  induction t with
  | nil =>
    intro h c hc
    unfold containsL at h
    rw [List.isEmpty_iff] at h
    subst h
    cases hc
  | cons a t' ih =>
    intro h c hc
    unfold containsL at h
    rcases Bool.or_eq_true_iff.mp h with h' | h'
    · exact prefixAt_subset h' c hc
    · exact List.mem_cons_of_mem _ (ih h' c hc)

theorem mem_pyStripL {l : Chars} {c : Char} (h : c ∈ pyStripL l) : c ∈ l := by
  unfold pyStripL at h
  rw [List.mem_reverse] at h
  have h1 : c ∈ (l.dropWhile isPySpace).reverse :=
    (List.dropWhile_sublist _).mem h
  rw [List.mem_reverse] at h1
  exact (List.dropWhile_sublist _).mem h1

theorem cleanText_noAlnum {s : String}
    (h : ∀ c ∈ s.data, (c.isAlpha || c.isDigit) = false) :
    ∀ c ∈ (cleanText s).data, (c.isAlpha || c.isDigit) = false := by
  intro c hc
  obtain ⟨y, hy, hxy⟩ := List.mem_map.mp hc
  have hyc : y = ' ' ∨ y ∈ s.data := by
    rcases collapse_mem_space_or hy with h' | ⟨h1, _⟩
    · exact Or.inl h'
    · exact Or.inr (mem_pyStripL h1)
  by_cases hk : (isWordChar y || isPySpace y || isKeptPunct y) = true
  · rw [if_pos hk] at hxy
    subst hxy
    rcases hyc with h' | h'
    · subst h'; decide
    · exact h y h'
  · rw [if_neg hk] at hxy
    subst hxy
    decide

theorem lowerStr_noAlpha {s : String}
    (h : ∀ c ∈ s.data, (c.isAlpha || c.isDigit) = false) :
    ∀ c ∈ (lowerStr s).data, c.isAlpha = false := by
  intro c hc
  obtain ⟨y, hy, hxy⟩ := List.mem_map.mp hc
  have hy' := (Bool.or_eq_false_iff.mp (h y hy)).1
  subst hxy
  rw [toLower_eq_self hy']
  exact hy'

theorem firstVariation_none {tl : String} {found : List String} {medName : String}
    {vars : List String} (htl : ∀ c ∈ tl.data, c.isAlpha = false)
    (hvars : ∀ v ∈ vars, v.data.any Char.isAlpha = true) :
    firstVariation tl found medName vars = none := by
  induction vars with
  | nil => rfl
  | cons v vs ih =>
    unfold firstVariation
    have hcontains : containsStr tl v = false := by
      cases hco : containsStr tl v with
      | false => rfl
      | true =>
        exfalso
        obtain ⟨c, hc, hca⟩ := List.any_eq_true.mp (hvars v (List.mem_cons_self _ _))
        have := htl c (containsL_subset hco c hc)
        rw [hca] at this
        cases this
    rw [hcontains]
    simp only [Bool.false_and, Bool.false_eq_true, if_false]
    exact ih fun v' hv' => hvars v' (List.mem_cons_of_mem _ hv')

theorem ruleBasedGo_garbage {text tl : String}
    (htl : ∀ c ∈ tl.data, c.isAlpha = false) :
    ∀ (db : List (String × List String)),
      (∀ e ∈ db, ∀ v ∈ e.2, v.data.any Char.isAlpha = true) →
      ∀ found, ruleBasedGo text tl db found = .ok [] := by
  intro db
  induction db with
  | nil => intro _ _; rfl
  | cons e db ih =>
    intro hdb found
    rcases e with ⟨medName, vars⟩
    unfold ruleBasedGo
    rw [firstVariation_none htl fun v hv => hdb _ (List.mem_cons_self _ _) v hv]
    exact ih (fun e' he' v hv => hdb e' (List.mem_cons_of_mem _ he') v hv) found

theorem matchWordTok_none {c : Char} {r : Chars} (h : c.isAlpha = false) :
    matchWordTok (c :: r) = none := by
  simp [matchWordTok, List.takeWhile_cons, h]

theorem matchName_none {prev : Option Char} {c : Char} {r : Chars}
    (h : c.isAlpha = false) : matchName prev (c :: r) = none := by
  unfold matchName
  split
  · rw [matchWordTok_none h]
  · rfl

theorem matchNum_none {c : Char} {r : Chars} (h : c.isDigit = false) :
    matchNum (c :: r) = none := by
  simp [matchNum, List.takeWhile_cons, h]

theorem takeLitCIGo_none {p : Char} {ps : Chars} {c : Char} {r : Chars}
    (hc : c.isAlpha = false) (hp : p.isAlpha = true) :
    takeLitCIGo (p :: ps) (c :: r) = none := by
  unfold takeLitCIGo
  rw [if_neg]
  intro he
  rw [toLower_eq_self hc] at he
  subst he
  rw [hp] at hc
  cases hc

theorem firstAlt_none {α : Type} {alts : List String} {l : Chars}
    {k : Chars → Chars → Option α} (h : ∀ a ∈ alts, takeLitCI a l = none) :
    firstAlt alts l k = none := by
  induction alts with
  | nil => rfl
  | cons a as ih =>
    unfold firstAlt
    rw [show takeLitCI a l = none from h a (List.mem_cons_self _ _)]
    exact ih fun a' ha' => h a' (List.mem_cons_of_mem _ ha')

theorem matchP1_none {prev : Option Char} {c : Char} {r : Chars}
    (h : (c.isAlpha || c.isDigit) = false) : matchP1 prev (c :: r) = none := by
  unfold matchP1
  rw [matchName_none (Bool.or_eq_false_iff.mp h).1]

theorem matchP2_none {prev : Option Char} {c : Char} {r : Chars}
    (h : (c.isAlpha || c.isDigit) = false) : matchP2 prev (c :: r) = none := by
  unfold matchP2
  rw [matchName_none (Bool.or_eq_false_iff.mp h).1]

theorem matchP3_none {prev : Option Char} {c : Char} {r : Chars}
    (h : (c.isAlpha || c.isDigit) = false) : matchP3 prev (c :: r) = none := by
  unfold matchP3
  rw [matchName_none (Bool.or_eq_false_iff.mp h).1]

theorem matchP4_none {prev : Option Char} {c : Char} {r : Chars}
    (h : (c.isAlpha || c.isDigit) = false) : matchP4 prev (c :: r) = none := by
  have ha := (Bool.or_eq_false_iff.mp h).1
  unfold matchP4
  apply firstAlt_none
  intro a hamem
  simp only [List.mem_cons, List.not_mem_nil, or_false] at hamem
  rcases hamem with h' | h' | h' | h' | h' | h' | h' | h' <;> subst h' <;>
    exact takeLitCIGo_none ha (by decide)

theorem matchP5_none {prev : Option Char} {c : Char} {r : Chars}
    (h : (c.isAlpha || c.isDigit) = false) : matchP5 prev (c :: r) = none := by
  unfold matchP5
  rw [matchName_none (Bool.or_eq_false_iff.mp h).1]

theorem matchP6_none {prev : Option Char} {c : Char} {r : Chars}
    (h : (c.isAlpha || c.isDigit) = false) : matchP6 prev (c :: r) = none := by
  unfold matchP6
  rw [matchNum_none (Bool.or_eq_false_iff.mp h).2]

theorem matchP7_none {prev : Option Char} {c : Char} {r : Chars}
    (h : (c.isAlpha || c.isDigit) = false) : matchP7 prev (c :: r) = none := by
  unfold matchP7
  rw [matchName_none (Bool.or_eq_false_iff.mp h).1]

theorem matchP8_none {prev : Option Char} {c : Char} {r : Chars}
    (h : (c.isAlpha || c.isDigit) = false) : matchP8 prev (c :: r) = none := by
  have ha := (Bool.or_eq_false_iff.mp h).1
  unfold matchP8
  apply firstAlt_none
  intro a hamem
  simp only [List.mem_cons, List.not_mem_nil, or_false] at hamem
  rcases hamem with h' | h' | h' | h' | h' | h' | h' | h' | h' <;> subst h' <;>
    exact takeLitCIGo_none ha (by decide)

theorem matchP9_none {prev : Option Char} {c : Char} {r : Chars}
    (h : (c.isAlpha || c.isDigit) = false) : matchP9 prev (c :: r) = none := by
  have ha := (Bool.or_eq_false_iff.mp h).1
  unfold matchP9
  rw [show takeLitCI "tab." (c :: r) = none from takeLitCIGo_none ha (by decide)]

theorem matchP10_none {prev : Option Char} {c : Char} {r : Chars}
    (h : (c.isAlpha || c.isDigit) = false) : matchP10 prev (c :: r) = none := by
  have ha := (Bool.or_eq_false_iff.mp h).1
  unfold matchP10
  rw [show takeLitCI "tab." (c :: r) = none from takeLitCIGo_none ha (by decide)]

theorem findIterGo_nil {m : Option Char → Chars → Option (List String × Chars)}
    (hstep : ∀ prev c r, (c.isAlpha || c.isDigit) = false → m prev (c :: r) = none) :
    ∀ {l : Chars}, (∀ c ∈ l, (c.isAlpha || c.isDigit) = false) →
      ∀ fuel prev idx, findIterGo m fuel prev idx l = [] := by
  intro l
  induction l with
  | nil => intro _ fuel prev idx; cases fuel <;> rfl
  | cons c r ih =>
    intro hl fuel prev idx
    cases fuel with
    | zero => rfl
    | succ f =>
      unfold findIterGo
      rw [hstep prev c r (hl c (List.mem_cons_self _ _))]
      exact ih (fun c' hc' => hl c' (List.mem_cons_of_mem _ hc')) f (some c) (idx + 1)

theorem pbOuter_garbage {text : String} :
    ∀ (mks : List (Option Char → Chars → Option (List String × Chars))),
      (∀ mk ∈ mks, findIter mk text.data = []) →
      ∀ found, pbOuter text mks found = .ok [] := by
  intro mks
  induction mks with
  | nil => intro _ _; rfl
  | cons mk mks ih =>
    intro hmk found
    unfold pbOuter
    rw [hmk mk (List.mem_cons_self _ _),
      show pbMatches text [] found = .ok (found, []) from rfl]
    show (match pbOuter text mks found with
      | Except.error e => Except.error e
      | Except.ok meds2 => Except.ok ([] ++ meds2)) = Except.ok []
    rw [ih (fun mk' hm' => hmk mk' (List.mem_cons_of_mem _ hm')) found]
    rfl

theorem patternBased_garbage {text : String}
    (h : ∀ c ∈ text.data, (c.isAlpha || c.isDigit) = false) :
    patternBasedExtraction text = .ok [] := by
  apply pbOuter_garbage
  intro mk hmk
  simp only [patternMatchers, List.mem_cons, List.not_mem_nil, or_false] at hmk
  rcases hmk with h' | h' | h' | h' | h' | h' | h' | h' | h' | h' <;> subst h'
  · exact findIterGo_nil (fun _ _ _ hc => matchP1_none hc) h _ _ _
  · exact findIterGo_nil (fun _ _ _ hc => matchP2_none hc) h _ _ _
  · exact findIterGo_nil (fun _ _ _ hc => matchP3_none hc) h _ _ _
  · exact findIterGo_nil (fun _ _ _ hc => matchP4_none hc) h _ _ _
  · exact findIterGo_nil (fun _ _ _ hc => matchP5_none hc) h _ _ _
  · exact findIterGo_nil (fun _ _ _ hc => matchP6_none hc) h _ _ _
  · exact findIterGo_nil (fun _ _ _ hc => matchP7_none hc) h _ _ _
  · exact findIterGo_nil (fun _ _ _ hc => matchP8_none hc) h _ _ _
  · exact findIterGo_nil (fun _ _ _ hc => matchP9_none hc) h _ _ _
  · exact findIterGo_nil (fun _ _ _ hc => matchP10_none hc) h _ _ _

/-! ## The claims -/

/-- **C1** (confirmed): on the input `"Tab. Augmentin 625mg 1-0-1 x 5 days"`,
`extract_medications` yields exactly one record with name `"Augmentin"`,
dosage `"625 mg"`, frequency `"twice daily (morning & night)"` and duration
`"5 days"`. -/
theorem c1_pipeline_augmentin :
    extractMedications (some "Tab. Augmentin 625mg 1-0-1 x 5 days") =
      .ok [{ name := "Augmentin", dosage := "625 mg",
             frequency := "twice daily (morning & night)", duration := "5 days",
             instructions := "Take 1 dose in the morning and 1 dose at night",
             confidence := 8, source := "rule_based" }] := by
  rfl

/-- **C2** (code bug): `parse_frequency` does *not* implement the claimed
table.  Its `'once daily' in f or 'daily' in f` branch precedes the
`'twice daily'`/`'three times daily'`/`'four times daily'` branches and every
one of those labels contains the substring `"daily"`, so all of them return
`["09:00"]`; the multi-dose branches (with their `# 9 AM and 9 PM` style
comments) are unreachable for the very labels they name.  Only the
`"once daily"` and `"as needed"`/`"sos"` rows of the claimed table hold. -/
theorem c2_parse_frequency_daily_shadowing :
    parseFrequency "once daily" = ["09:00"] ∧
    parseFrequency "twice daily" = ["09:00"] ∧
    parseFrequency "three times daily" = ["09:00"] ∧
    parseFrequency "four times daily" = ["09:00"] ∧
    parseFrequency "as needed" = [] ∧
    parseFrequency "sos" = [] := by
  exact ⟨rfl, rfl, rfl, rfl, rfl, rfl⟩

/-- **C3** (counterexample): for the producible canonical label
`"every 6 hours"`, `parse_frequency` returns `["06:00","12:00","18:00","00:00"]`,
which ends with `"00:00"` and is not sorted in non-decreasing order. -/
theorem c3_counterexample :
    parseFrequency "every 6 hours" = ["06:00", "12:00", "18:00", "00:00"] ∧
    sortedTimes (parseFrequency "every 6 hours") = false := by
  exact ⟨rfl, rfl⟩

/-- **C3** (amended): for every canonical label the frequency interpreter can
produce, `parse_frequency` returns a duplicate-free list of valid `"HH:MM"`
strings, and that list is sorted in non-decreasing order for every label
except `"every 6 hours"` and `"every 8 hours"`, whose lists end with
`"00:00"` (midnight last instead of first). -/
theorem c3_amended :
    producibleLabels.all (fun l =>
      (parseFrequency l).all validHHMM && noDupTimes (parseFrequency l) &&
      (sortedTimes (parseFrequency l) || l == "every 6 hours" || l == "every 8 hours")) =
      true := by
  rfl

/-- **C4** (code bug): `_calculate_expected_doses` has the same shadowing slip
as `parse_frequency`: its first branch tests `'daily' in frequency`, which the
label `"twice daily"` satisfies, so for a start 10 days in the past it returns
`10`, not the claimed `20` (the `* 2` branch is unreachable for any label
containing `"daily"`). -/
theorem c4_expected_doses_twice_daily :
    calcExpectedDoses "twice daily" 10 = 10 ∧ calcExpectedDoses "twice daily" 10 ≠ 20 := by
  exact ⟨rfl, by decide⟩

/-- **C5** (counterexample): `merge_medications` is not idempotent on its own
output.  `[cm1, cm2, cm3]` merges to `[cm2, cm3]` (group keys `"xyz"` and
`"abc"`), but re-merging that output collapses it to `[cm2]` because `"abc"`
is a substring of the surviving name `"Xyzabc"`. -/
theorem c5_counterexample :
    mergeMedications [cm1, cm2, cm3] = .ok [cm2, cm3] ∧
    mergeMedications [cm2, cm3] = .ok [cm2] ∧
    mergeMedications [cm2, cm3] ≠ .ok [cm2, cm3] := by
  exact ⟨rfl, rfl, by decide⟩

/-- **C5** (amended): `merge` is not idempotent in general (grouping is
order-sensitive and a surviving record's name can contain another group's
key), but re-merging an output of `merge` always yields at most as many
records as that output. -/
theorem c5_amended :
    ∀ ms out out2 : List Med,
      mergeMedications ms = .ok out → mergeMedications out = .ok out2 →
      out2.length ≤ out.length := by
  intro ms out out2 _ h2
  exact mergeMedications_length_le h2

theorem c5_amended_witness :
    ([cm2] : List Med).length ≤ ([cm2, cm3] : List Med).length :=
  c5_amended [cm1, cm2, cm3] [cm2, cm3] [cm2] (by decide) (by decide)

/-- **C6** (counterexample): a non-string input does not yield an empty result
set: `extract_medications(None)` reaches `None.strip()` in `clean_text` and
raises `AttributeError`. -/
theorem c6_counterexample :
    extractMedications none = .error .attributeError := by
  rfl

/-- **C6** (amended): the empty string and every garbage string (no letters,
no digits — "random symbols") yield an empty medication list without raising;
the claim's non-string clause fails (see the counterexample). -/
theorem c6_amended :
    extractMedications (some "") = .ok [] ∧
    ∀ s : String, noAlnumStr s = true → extractMedications (some s) = .ok [] := by
  constructor
  · rfl
  · intro s hs
    have hraw : ∀ c ∈ s.data, (c.isAlpha || c.isDigit) = false := by
      rw [noAlnumStr, List.all_eq_true] at hs
      intro c hc
      have := hs c hc
      rwa [Bool.not_eq_true'] at this
    have hclean := cleanText_noAlnum hraw
    have hlower : ∀ c ∈ (lowerStr (cleanText s)).data, c.isAlpha = false :=
      lowerStr_noAlpha hclean
    have hrule : ruleBasedExtraction (cleanText s) = .ok [] := by
      unfold ruleBasedExtraction
      apply ruleBasedGo_garbage hlower
      have hdb : medicationDatabase.all
          (fun e => e.2.all fun v => v.data.any Char.isAlpha) = true := by decide
      rw [List.all_eq_true] at hdb
      intro e he v hv
      have := hdb e he
      rw [List.all_eq_true] at this
      exact this v hv
    have hpat : patternBasedExtraction (cleanText s) = .ok [] :=
      patternBased_garbage hclean
    show (match ruleBasedExtraction (cleanText s) with
      | Except.error e => Except.error e
      | Except.ok r =>
        match patternBasedExtraction (cleanText s) with
        | Except.error e => Except.error e
        | Except.ok p => mergeMedications (r ++ p)) = Except.ok []
    rw [hrule, hpat]
    rfl

theorem c6_amended_witness :
    noAlnumStr "@#$% !!" = true ∧ extractMedications (some "@#$% !!") = .ok [] :=
  ⟨by decide, c6_amended.2 "@#$% !!" (by decide)⟩

/-- **C7** (counterexample): `pattern_based_extraction` *can* emit a candidate
named `"Unknown Medication"` — it suffices for the input text to contain those
words, which pattern 1 captures as an ordinary name token. -/
theorem c7_counterexample :
    (patternBasedExtraction "Unknown Medication 5 mg").toOption.getD [] =
      [{ name := "Unknown Medication", dosage := "5 mg", frequency := "daily",
         duration := "5 months", instructions := "daily",
         confidence := 7, source := "pattern_based" }] := by
  rfl

/-- **C7** (amended): the extractor itself never *synthesizes* the placeholder
(the only `"Unknown Medication"` assignment sits in the two-group branch,
which is dead because every pattern captures 1, 3 or 4 groups), but it can
emit the name when the text literally contains it; `merge_medications`
filters any such name, so the pipeline's final output never contains a
record whose lowercased name is `"unknown medication"`. -/
theorem c7_amended :
    ∀ (text : String) (out : List Med),
      extractMedications (some text) = .ok out →
      out.all (fun m => !(lowerStr m.name == "unknown medication")) = true := by
  intro t out h
  obtain ⟨r, p, _, _, hm⟩ := extractMedications_some h
  have hv := merge_all_valid hm
  rw [List.all_eq_true] at hv ⊢
  intro m hmem
  have hvm := hv m hmem
  unfold validRecordB validNameB at hvm
  simp only [Bool.and_eq_true, Bool.not_eq_true'] at hvm
  obtain ⟨⟨⟨_, _⟩, _⟩, h4⟩ := hvm
  cases he : lowerStr m.name == "unknown medication" with
  | false => simp [he]
  | true =>
    exfalso
    have heq : lowerStr m.name = "unknown medication" := by simpa using he
    rw [heq] at h4
    exact absurd h4 (by decide)

theorem c7_amended_witness :
    ([augmentinRec] : List Med).all
      (fun m => !(lowerStr m.name == "unknown medication")) = true :=
  c7_amended "Tab. Augmentin 625mg 1-0-1 x 5 days" [augmentinRec] (by rfl)

/-- **C8** (counterexample): when the exact case-insensitive search fails on a
non-empty text, the dosage and frequency sub-extractors do *not* fall back to
a working fuzzy match — their word loop calls `self.fuzzy_match`, which is
defined nowhere in the class, raising `AttributeError`; and the duration
sub-extractor has no fuzzy fallback at all (it returns its default
immediately). -/
theorem c8_counterexample :
    extractDosageNearMedication "hello world" "aspirin" = .error .attributeError ∧
    extractFrequencyNearMedication "hello world" "aspirin" = .error .attributeError ∧
    extractDurationNearMedication "hello world" "aspirin" = .ok "7 days" := by
  exact ⟨rfl, rfl, rfl⟩

/-- **C8** (amended): the duration sub-extractor never raises (no fuzzy branch
at all); the dosage and frequency sub-extractors return a value exactly when
the exact case-insensitive search succeeds or the text has no words (the
`for`-`else` falls through to the default), and otherwise raise
`AttributeError` from the undefined `self.fuzzy_match`. -/
theorem c8_amended :
    ∀ t m : String,
      isOkE (extractDurationNearMedication t m) = true ∧
      isOkE (extractDosageNearMedication t m) =
        (containsCIStr t m || (pySplitL t.data).isEmpty) ∧
      isOkE (extractFrequencyNearMedication t m) =
        (containsCIStr t m || (pySplitL t.data).isEmpty) := by
  intro t m
  unfold extractDurationNearMedication extractDosageNearMedication
    extractFrequencyNearMedication containsCIStr
  cases h : findIdxL (lowerStr t).data (lowerStr m).data with
  | none =>
    simp only [h, Option.isSome_none, Bool.false_or]
    refine ⟨rfl, ?_, ?_⟩ <;>
      (cases he : (pySplitL t.data).isEmpty <;> simp [isOkE, he])
  | some pos =>
    simp only [h, Option.isSome_some, Bool.true_or]
    exact ⟨rfl, rfl, rfl⟩

/-- **C9** (counterexample): the claim fails for `PrescriptionOCR.clean_text`,
which rewrites a standalone digit `0` to the letter `O`
(`re.sub(r'\b0\b', 'O', ·)`), deleting a digit from the digit subsequence. -/
theorem c9_counterexample :
    ocrCleanText "0" = "O" ∧ stringDigits (ocrCleanText "0") ≠ stringDigits "0" := by
  exact ⟨rfl, by decide⟩

/-- **C9** (amended): `AIProcessor.clean_text` (which, unlike the OCR variant,
performs no character-confusion rewriting) preserves the digit subsequence of
its input exactly, and outputs only word characters (letters, digits,
underscore), the kept punctuation `.,:;()[]\x7b\x7d/\-+=%`, and spaces.  (Its
whitespace collapse happens *before* the character replacement, so replaced
characters can leave adjacent multi-space runs in the output, and the
underscore — a `\w` character — survives even though the claim's allow-list
excludes it.) -/
theorem c9_amended :
    ∀ s : String,
      stringDigits (cleanText s) = stringDigits s ∧
      (cleanText s).data.all allowedOutChar = true := by
  intro s
  constructor
  · show (replaceDisallowed (collapseWsGo false (pyStripL s.data))).filter Char.isDigit =
      s.data.filter Char.isDigit
    rw [filter_digit_replace, filter_digit_collapse, filter_digit_pyStrip]
  · show (replaceDisallowed (collapseWsGo false (pyStripL s.data))).all allowedOutChar = true
    apply allowed_replace
    intro c hc hsp
    rcases collapse_mem_space_or hc with h | ⟨_, hns⟩
    · exact h
    · rw [hsp] at hns; cases hns

/-- **C10** (confirmed): whenever `merge_medications` returns a record list, it
has at most as many records as there were candidates, and every returned
record's name is non-empty, at least two characters, not purely numeric, and
case-insensitively none of `mg`/`ml`/`tablet`/`cap`/`tab`/`unknown medication`;
`extract_medications` ends in `merge_medications`, so the pipeline hands the
persistence layer only records satisfying the same name invariant. -/
theorem c10_merge_invariants :
    (∀ meds out : List Med, mergeMedications meds = .ok out →
      out.length ≤ meds.length ∧ out.all validRecordB = true) ∧
    (∀ (inp : Option String) (out : List Med), extractMedications inp = .ok out →
      out.all validRecordB = true) := by
  constructor
  · intro meds out h
    exact ⟨mergeMedications_length_le h, merge_all_valid h⟩
  · intro inp out h
    cases inp with
    | none => exact Except.noConfusion h
    | some s =>
      obtain ⟨r, p, _, _, hm⟩ := extractMedications_some h
      exact merge_all_valid hm

theorem c10_merge_invariants_witness :
    (([cm2, cm3] : List Med).length ≤ ([cm1, cm2, cm3] : List Med).length ∧
      ([cm2, cm3] : List Med).all validRecordB = true) ∧
    ([augmentinRec] : List Med).all validRecordB = true :=
  ⟨c10_merge_invariants.1 [cm1, cm2, cm3] [cm2, cm3] (by decide),
   c10_merge_invariants.2 (some "Tab. Augmentin 625mg 1-0-1 x 5 days") [augmentinRec]
     (by rfl)⟩

end MedMorph
